import Mathlib

/-!
Verification of the Pandora PCA-comparison core (src/pandora/pca.py and
src/pandora/pca_comparison.py) against its natural-language specification.

The embedding follows the Python source closely:

* a `PCA` object is the sorted sample table (one `Row` per sample holding the
  sample id, the population label and the PC vector) together with the
  explained variances and the number of retained components;
* numeric values are rationals; `np.sqrt` is modelled by `npSqrt` which is
  `none` on negative inputs (numpy returns NaN there) and otherwise an exact
  square root whenever the radicand is a perfect square of a rational
  (`ratSqrt`, via `Nat.sqrt`; all concrete inputs used in the theorems below
  are perfect squares, so the model is exact on them);
* the external numeric kernels that the source calls but does not implement
  (`scipy.spatial.procrustes`, the `GridSearchCV` + `GaussianMixture` BIC
  scoring, the fitted `KMeans.predict`, `sklearn.metrics.fowlkes_mallows_score`)
  are a parameter `Kernels`; theorems quantify over the kernels, adding only
  the documented facts about them that a particular claim needs, and concrete
  instantiations are used for witnesses and counterexamples;
* Python exceptions (`PandoraException`, `AssertionError`, exceptions raised
  inside pandas/sklearn) become `Except String`; the `warnings.warn` side
  effect of `_check_sample_clipping` is returned as an explicit list of
  `ClipWarning` values.
-/

set_option allowUnsafeReducibility true

attribute [local semireducible] Rat.add Rat.mul Rat.inv Rat.div Rat.sub Rat.neg

namespace Pandora

/-- A matrix is a list of row vectors, mirroring a 2-dimensional numpy array
of shape (number of rows, row width). -/
abbrev Mat := List (List ℚ)

/-- Strict lexicographic comparison of character lists by code point — the
order Python and pandas use when sorting sample-id strings. -/
def charListLt : List Char → List Char → Bool
  | _, [] => false
  | [], _ :: _ => true
  | a :: as, b :: bs =>
    if a.toNat < b.toNat then true
    else if b.toNat < a.toNat then false
    else charListLt as bs

/-- Strict string comparison by code points. -/
def strLt (a b : String) : Bool := charListLt a.data b.data

/-- Weak string comparison by code points. -/
def strLe (a b : String) : Bool := strLt a b || a.data == b.data

/-- `strLt` as a relation. -/
def strLtP (a b : String) : Prop := strLt a b = true

/-- `strLe` as a relation. -/
def strLeP (a b : String) : Prop := strLe a b = true

instance : DecidableRel strLtP := fun a b =>
  inferInstanceAs (Decidable (strLt a b = true))

instance : DecidableRel strLeP := fun a b =>
  inferInstanceAs (Decidable (strLe a b = true))

instance {e a : Type} [DecidableEq e] [DecidableEq a] : DecidableEq (Except e a) := fun x y =>
  match x, y with
  | .error e1, .error e2 =>
    if h : e1 = e2 then .isTrue (congrArg Except.error h)
    else .isFalse fun hc => h (Except.error.inj hc)
  | .error e1, .ok v2 => .isFalse fun hc => Except.noConfusion hc
  | .ok v1, .error e2 => .isFalse fun hc => Except.noConfusion hc
  | .ok v1, .ok v2 =>
    if h : v1 = v2 then .isTrue (congrArg Except.ok h)
    else .isFalse fun hc => h (Except.ok.inj hc)

/-- One row of the `pca_data` dataframe: the sample id, the population label
and the PC coordinates of one sample. -/
structure Row where
  sample_id : String
  population : String
  pcs : List ℚ
deriving DecidableEq

/-- Embedding of the `PCA` class of src/pandora/pca.py: the sample table
(sorted by sample id by the constructor `mkPCA`), the explained variances and
the number of principal components. -/
structure PCA where
  rows : List Row
  explained_variances : List ℚ
  n_pcs : ℕ
deriving DecidableEq

/-- The `sample_id` column of `pca_data`. -/
def PCA.sample_ids (p : PCA) : List String := p.rows.map Row.sample_id

/-- The `population` column of `pca_data`. -/
def PCA.populations (p : PCA) : List String := p.rows.map Row.population

/-- `PCA.pc_vectors`: the numpy matrix of shape (n_samples, n_pcs) holding the
PC columns of `pca_data`. -/
def PCA.pc_vectors (p : PCA) : Mat := p.rows.map Row.pcs

/-- `pca_data.shape[0]`, the number of samples. -/
def PCA.nSamples (p : PCA) : ℕ := p.rows.length

/-- `pc_vectors.shape`: the pandas dataframe always carries exactly the
`n_pcs` PC columns (the constructor validates this), so the numpy matrix has
shape (number of rows, n_pcs). -/
def PCA.shape (p : PCA) : ℕ × ℕ := (p.rows.length, p.n_pcs)

/-- Row comparison used by `pca_data.sort_values(by="sample_id")`: pandas
sorts string labels by code points. -/
def rowLe (a b : Row) : Prop := strLeP a.sample_id b.sample_id

instance : DecidableRel rowLe := fun a b =>
  inferInstanceAs (Decidable (strLeP a.sample_id b.sample_id))

/-- Embedding of `PCA.__init__`: validates that one explained variance is given
per PC and that every row carries exactly `n_pcs` PC values (the dataframe
shape check `pca_data.shape[1] == n_pcs + 2`), then sorts the table by sample
id (`sort_values` is a stable sort, as is `List.insertionSort`). -/
def mkPCA (pca_data : List Row) (explained_variances : List ℚ) (n_pcs : ℕ) :
    Except String PCA :=
  if explained_variances.length ≠ n_pcs then
    .error "Explained variance required for each PC"
  else if ¬ (pca_data.all fun row => row.pcs.length = n_pcs) then
    .error "One data column required for each PC"
  else
    .ok ⟨pca_data.insertionSort rowLe, explained_variances, n_pcs⟩

/-- Strictly increasing sequence of sample ids, as an executable check. -/
def idsSortedStrict : List String → Bool
  | [] => true
  | [_] => true
  | a :: b :: t => strLt a b && idsSortedStrict (b :: t)

/-- Well-formedness invariant of a constructed `PCA` object: sample ids are
strictly sorted (canonical order, no duplicate ids — the data-model invariant
of the specification), every PC vector has length `n_pcs` and there is one
explained variance per PC. -/
def PCA.WF (p : PCA) : Prop :=
  idsSortedStrict p.sample_ids = true ∧
  (∀ row ∈ p.rows, row.pcs.length = p.n_pcs) ∧
  p.explained_variances.length = p.n_pcs

instance (p : PCA) : Decidable p.WF :=
  inferInstanceAs (Decidable (idsSortedStrict p.sample_ids = true ∧
    (∀ row ∈ p.rows, row.pcs.length = p.n_pcs) ∧
    p.explained_variances.length = p.n_pcs))

/-- The external numeric kernels invoked by the source but implemented by
scipy/sklearn.  `procrustes m1 m2` models `scipy.spatial.procrustes(m1, m2)`
returning the standardized first matrix, the transformed second matrix and the
disparity.  `score m k` models the `GridSearchCV` mean test score of the
candidate `n_components = k` for a `GaussianMixture` fit on `m`, i.e. the mean
of `-estimator.bic(X)` over the cross-validation folds.  `kmPredict k fit m`
models `KMeans(random_state=42, n_clusters=k, n_init=10).fit(fit).predict(m)`
(the seed is fixed in the source, so the fitted model is a function of `k` and
the fit data).  `fowlkes a b` models `sklearn.metrics.fowlkes_mallows_score`. -/
structure Kernels where
  procrustes : Mat → Mat → Mat × Mat × ℚ
  score : Mat → ℕ → ℚ
  kmPredict : ℕ → Mat → Mat → List ℕ
  fowlkes : List ℕ → List ℕ → ℚ

/-- `GridSearchCV` best-parameter selection over a candidate list: the first
candidate attaining the maximal score (sklearn ranks the mean test scores and
`best_index_` is the first index of rank one). `none` models the `ValueError`
sklearn raises when the parameter grid produces no fit at all. -/
def bestParam (score : ℕ → ℚ) : List ℕ → Option ℕ
  | [] => none
  | k :: ks => some (ks.foldl (fun best cand => if score best < score cand then cand else best) k)

/-- The `max_k` computed by `get_optimal_kmeans_k` when no boundaries are
given: `pca_data.population.unique().shape[0]` distinct population labels when
more than one population is present, else `int(math.sqrt(n_samples))` — the
floor square root of the sample count (`math.sqrt` is exact on these integer
ranges and `int` truncates towards zero). -/
def autoMaxK (p : PCA) : ℕ :=
  let n_populations := p.populations.dedup.length
  if 1 < n_populations then n_populations else Nat.sqrt p.nSamples

/-- Embedding of `PCA.get_optimal_kmeans_k`: when no boundaries are supplied,
`max_k` is `autoMaxK` and `min_k = min(3, max_k)`.  The candidate grid is
`range(min_k, max_k)`, a half-open range, searched by `GridSearchCV` with the
negative-BIC score. -/
def PCA.get_optimal_kmeans_k (K : Kernels) (p : PCA) (k_boundaries : Option (ℕ × ℕ)) :
    Except String ℕ :=
  let bounds :=
    match k_boundaries with
    | none => (min 3 (autoMaxK p), autoMaxK p)
    | some b => b
  match bestParam (fun k => K.score p.pc_vectors k) (List.range' bounds.1 (bounds.2 - bounds.1)) with
  | none => .error "No fits were performed"
  | some k => .ok k

/-- Embedding of `PCA.cluster`: fits `KMeans(random_state=42, n_clusters=k,
n_init=10)` on `pc_vectors` and returns the fitted predict function; when no
`kmeans_k` is given the optimal k is determined first. -/
def PCA.cluster (K : Kernels) (p : PCA) (kmeans_k : Option ℕ) :
    Except String (Mat → List ℕ) :=
  match kmeans_k with
  | none =>
    match p.get_optimal_kmeans_k K none with
    | .error e => .error e
    | .ok k => .ok (K.kmPredict k p.pc_vectors)
  | some k => .ok (K.kmPredict k p.pc_vectors)

/-- Embedding of `filter_samples` of src/pandora/pca_comparison.py: keep the
rows whose sample id occurs in `samples_to_keep` and rebuild the `PCA` object
through the constructor. -/
def filter_samples (pca : PCA) (samples_to_keep : List String) : Except String PCA :=
  mkPCA (pca.rows.filter fun row => decide (row.sample_id ∈ samples_to_keep))
    pca.explained_variances pca.n_pcs

/-- The data carried by the warning `_check_sample_clipping` emits. -/
structure ClipWarning where
  n_samples_before : ℕ
  n_samples_after : ℕ
deriving DecidableEq

/-- Embedding of `_check_sample_clipping`: warn when
`n_samples_after <= 0.8 * n_samples_before` (the comparison is exact here;
for integer sample counts the binary floating-point evaluation of
`0.8 * n_samples_before` decides every comparison the same way as the exact
rational one). -/
def _check_sample_clipping (before_clipping after_clipping : PCA) : Option ClipWarning :=
  let n_samples_before := before_clipping.nSamples
  let n_samples_after := after_clipping.nSamples
  if (n_samples_after : ℚ) ≤ (8 / 10 : ℚ) * (n_samples_before : ℚ) then
    some ⟨n_samples_before, n_samples_after⟩
  else none

/-- The `sorted(set(comp_ids).intersection(set(ref_ids)))` expression of
`_clip_missing_samples_for_comparison`: deduplicate, intersect, sort. -/
def shared_sample_ids (comparable reference : PCA) : List String :=
  ((comparable.sample_ids.filter fun s => decide (s ∈ reference.sample_ids)).dedup).insertionSort
    strLeP

/-- Embedding of `_clip_missing_samples_for_comparison`: both objects are
filtered to the shared sample ids; the `assert` on equal matrix shapes becomes
an explicit error; the two `_check_sample_clipping` warnings are returned as a
list. -/
def _clip_missing_samples_for_comparison (comparable reference : PCA) :
    Except String (PCA × PCA × List ClipWarning) :=
  let shared_samples := shared_sample_ids comparable reference
  match filter_samples comparable shared_samples with
  | .error e => .error e
  | .ok comparable_clipped =>
    match filter_samples reference shared_samples with
    | .error e => .error e
    | .ok reference_clipped =>
      if comparable_clipped.shape ≠ reference_clipped.shape then .error "AssertionError"
      else
        .ok (comparable_clipped, reference_clipped,
          (_check_sample_clipping comparable comparable_clipped).toList ++
          (_check_sample_clipping reference reference_clipped).toList)

/-- Replacing the PC coordinates of a sample row, keeping its sample id and
population label: this is what building the new dataframe from a numpy matrix
plus the old id and population columns amounts to. -/
def updRow (row : Row) (v : List ℚ) : Row := { row with pcs := v }

/-- Embedding of `_numpy_to_pca_dataframe` followed by the `PCA` constructor:
checks that the matrix has one row per sample id (the population count check
of the source compares against the same length) and rebuilds the table with
the given matrix as PC data. -/
def _numpy_to_pca (mat : Mat) (table : List Row) (explained_variances : List ℚ)
    (n_pcs : ℕ) : Except String PCA :=
  if mat.length ≠ table.length then
    .error "One sample ID required for each sample"
  else
    mkPCA (List.zipWith updRow table mat) explained_variances n_pcs

/-- Embedding of `match_and_transform` of src/pandora/pca_comparison.py.  Note
the return order of the source: the docstring of the Python function promises
(transformed comparable, standardized reference, disparity) but the code
returns `standardized_reference, transformed_comparable, disparity`. -/
def match_and_transform (K : Kernels) (comparable reference : PCA) :
    Except String (PCA × PCA × ℚ × List ClipWarning) :=
  match _clip_missing_samples_for_comparison comparable reference with
  | .error e => .error e
  | .ok (comparable2, reference2, ws) =>
    if comparable2.sample_ids ≠ reference2.sample_ids then
      .error "Sample IDS between reference and comparable do not match"
    else if comparable2.shape ≠ reference2.shape then
      .error "Number of samples or PCs in comparable and reference do not match"
    else if comparable2.rows.length = 0 then
      .error "No samples left for comparison after clipping"
    else
      let res := K.procrustes reference2.pc_vectors comparable2.pc_vectors
      let standardized_reference := res.1
      let transformed_comparable := res.2.1
      let disparity := res.2.2
      match _numpy_to_pca standardized_reference reference2.rows
          reference2.explained_variances reference2.n_pcs with
      | .error e => .error e
      | .ok std_ref =>
        match _numpy_to_pca transformed_comparable comparable2.rows
            comparable2.explained_variances comparable2.n_pcs with
        | .error e => .error e
        | .ok trans_comp =>
          if std_ref.sample_ids ≠ trans_comp.sample_ids then
            .error "Sample IDS between reference and comparable do not match"
          else
            .ok (std_ref, trans_comp, disparity, ws)

/-- Embedding of the `PCAComparison` object state after `__init__`.  The
constructor unpacks `self.comparable, self.reference, self.disparity =
match_and_transform(...)`, so (because of the return order of
`match_and_transform`) the field `comparable` holds the standardized reference
and the field `reference` holds the transformed comparable. -/
structure PCAComparison where
  comparable : PCA
  reference : PCA
  disparity : ℚ
  sample_ids : List String
  warnings : List ClipWarning
deriving DecidableEq

/-- Embedding of `PCAComparison.__init__`. -/
def PCAComparison.init (K : Kernels) (comparable reference : PCA) :
    Except String PCAComparison :=
  match match_and_transform K comparable reference with
  | .error e => .error e
  | .ok (fst, snd, disparity, ws) =>
    .ok ⟨fst, snd, disparity, fst.sample_ids, ws⟩

/-- Floor square root of a rational, used to model the 64-bit floating-point
`np.sqrt` on non-negative rationals: `sqrt (a / b) = sqrt (a * b) / b`.  The
model is exact whenever the radicand is the square of a rational, which holds
for every concrete radicand appearing in the theorems below. -/
def ratSqrt (x : ℚ) : ℚ := (Nat.sqrt (x.num.toNat * x.den) : ℚ) / (x.den : ℚ)

/-- `np.sqrt` including its NaN behaviour: `none` models the NaN that numpy
produces (with a RuntimeWarning) on a negative argument. -/
def npSqrt (x : ℚ) : Option ℚ := if x < 0 then none else some (ratSqrt x)

/-- Embedding of `PCAComparison.compare`: `np.sqrt(1 - self.disparity)` with
no clamping of the radicand. -/
def PCAComparison.compare (self : PCAComparison) : Option ℚ :=
  npSqrt (1 - self.disparity)

/-- Embedding of `PCAComparison.compare_clustering`: when no `kmeans_k` is
given the cluster count is determined on `self.reference`; both stored objects
are clustered with that k and the Fowlkes-Mallows score of the two predicted
label assignments is returned. -/
def PCAComparison.compare_clustering (K : Kernels) (self : PCAComparison)
    (kmeans_k : Option ℕ) : Except String ℚ :=
  match (match kmeans_k with
         | none => self.reference.get_optimal_kmeans_k K none
         | some k => .ok k : Except String ℕ) with
  | .error e => .error e
  | .ok k =>
    match self.comparable.cluster K (some k) with
    | .error e => .error e
    | .ok comp_kmeans =>
      match self.reference.cluster K (some k) with
      | .error e => .error e
      | .ok ref_kmeans =>
        .ok (K.fowlkes (ref_kmeans self.reference.pc_vectors)
          (comp_kmeans self.comparable.pc_vectors))

/-- The pair of matrices on which `compare_clustering` fits its two K-Means
models: `self.comparable.cluster(k)` fits on `self.comparable.pc_vectors` and
`self.reference.cluster(k)` fits on `self.reference.pc_vectors`. -/
def PCAComparison.compareClusteringFitData (self : PCAComparison) : Mat × Mat :=
  (self.comparable.pc_vectors, self.reference.pc_vectors)

/-- Squared Euclidean distance of two coordinate rows. -/
def sqDist (a b : List ℚ) : ℚ := (List.zipWith (fun x y => (x - y) ^ 2) a b).sum

/-- Euclidean distance of two coordinate rows (one diagonal entry of
`sklearn.metrics.pairwise.euclidean_distances`). -/
def euclidean_distance (a b : List ℚ) : ℚ := ratSqrt (sqDist a b)

/-- Embedding of `PCAComparison._get_sample_distances`: the `assert` on equal
sample-id sequences becomes an error, and the diagonal of
`euclidean_distances(reference.pc_vectors, comparable.pc_vectors)` is the list
of per-sample distances, indexed by `self.sample_ids`. -/
def PCAComparison._get_sample_distances (self : PCAComparison) :
    Except String (List (String × ℚ)) :=
  if self.comparable.sample_ids = self.reference.sample_ids then
    .ok (List.zip self.sample_ids
      (List.zipWith euclidean_distance self.reference.pc_vectors self.comparable.pc_vectors))
  else .error "AssertionError"

/-- The support-value map `d ↦ 1 / (1 + d)` applied to each sample distance in
`get_sample_support_values`. -/
def supportOf (d : ℚ) : ℚ := 1 / (1 + d)

/-- Embedding of `PCAComparison.get_sample_support_values`:
`1 / (1 + sample_distances)`. -/
def PCAComparison.get_sample_support_values (self : PCAComparison) :
    Except String (List (String × ℚ)) :=
  match self._get_sample_distances with
  | .error e => .error e
  | .ok sample_distances => .ok (sample_distances.map fun p => (p.1, supportOf p.2))

/-- Embedding of `PCAComparison.detect_rogue_samples`.  The source filters the
support-value Series with `support_values.loc[lambda x: (x.support <
support_value_rogue_cutoff)]`.  Pandas attribute access `x.support` on a
Series returns the entry labelled "support" when such an index label exists
and raises AttributeError otherwise; when it exists, the comparison yields a
scalar boolean and `.loc[bool]` raises KeyError on the string-labelled index.
Either way the call raises instead of returning the filtered Series promised
by its docstring. -/
def PCAComparison.detect_rogue_samples (self : PCAComparison)
    (support_value_rogue_cutoff : ℚ) : Except String (List (String × ℚ)) :=
  match self.get_sample_support_values with
  | .error e => .error e
  | .ok support_values =>
    match support_values.find? (fun p => p.1 == "support") with
    | none => .error "AttributeError: Series object has no attribute support"
    | some p =>
      if p.2 < support_value_rogue_cutoff then
        .error "KeyError: scalar boolean label not in the sample-id index"
      else
        .error "KeyError: scalar boolean label not in the sample-id index"

/-- The object `filter_samples comparable shared_sample_ids` evaluates to for
well-formed input (the constructor sort is the identity there): the rows whose
sample id occurs in both objects. -/
def clipped_comparable (comparable reference : PCA) : PCA :=
  ⟨comparable.rows.filter fun row =>
      decide (row.sample_id ∈ shared_sample_ids comparable reference),
    comparable.explained_variances, comparable.n_pcs⟩

/-- The object `filter_samples reference shared_sample_ids` evaluates to for
well-formed input. -/
def clipped_reference (comparable reference : PCA) : PCA :=
  ⟨reference.rows.filter fun row =>
      decide (row.sample_id ∈ shared_sample_ids comparable reference),
    reference.explained_variances, reference.n_pcs⟩

/-- Shape facts about one concrete `procrustes` call: `scipy.spatial.procrustes`
returns matrices of the same shape as its (equal-shaped) inputs.  Stated at a
given argument pair and row width. -/
def Kernels.ShapeOkAt (K : Kernels) (a b : Mat) (w : ℕ) : Prop :=
  (K.procrustes a b).1.length = a.length ∧
  (K.procrustes a b).2.1.length = b.length ∧
  (∀ x ∈ (K.procrustes a b).1, x.length = w) ∧
  (∀ x ∈ (K.procrustes a b).2.1, x.length = w)

/-- Shape preservation of the procrustes kernel on every equal-shaped argument
pair, the behaviour of `scipy.spatial.procrustes`. -/
def Kernels.PreservesShape (K : Kernels) : Prop :=
  ∀ a b w, (∀ x ∈ a, x.length = w) → (∀ x ∈ b, x.length = w) → a.length = b.length →
    K.ShapeOkAt a b w

/-- Behaviour of `scipy.spatial.procrustes` on two identical matrices: both
returned matrices are the standardized input and the disparity is zero. -/
def Kernels.ProcrustesSelfId (K : Kernels) : Prop :=
  ∀ m : Mat, (K.procrustes m m).2.1 = (K.procrustes m m).1 ∧ (K.procrustes m m).2.2 = 0 ∧
    (K.procrustes m m).1.length = m.length ∧
    (∀ w, (∀ x ∈ m, x.length = w) → ∀ x ∈ (K.procrustes m m).1, x.length = w)

/-- The standardized-reference object `match_and_transform` builds for
well-formed inputs: the clipped reference rows with the PC data replaced by
the first procrustes output. -/
def built_std_ref (K : Kernels) (c r : PCA) : PCA :=
  ⟨List.zipWith updRow (clipped_reference c r).rows
      (K.procrustes (clipped_reference c r).pc_vectors (clipped_comparable c r).pc_vectors).1,
    r.explained_variances, r.n_pcs⟩

/-- The transformed-comparable object `match_and_transform` builds for
well-formed inputs: the clipped comparable rows with the PC data replaced by
the second procrustes output. -/
def built_trans_comp (K : Kernels) (c r : PCA) : PCA :=
  ⟨List.zipWith updRow (clipped_comparable c r).rows
      (K.procrustes (clipped_reference c r).pc_vectors (clipped_comparable c r).pc_vectors).2.1,
    c.explained_variances, c.n_pcs⟩

/-!
Concrete kernel instantiations and concrete embeddings, used by the witnesses
and counterexamples below.
-/

/-- A trivial kernel instantiation: the procrustes stand-in returns its inputs
unchanged with disparity zero (what `scipy.spatial.procrustes` produces, up to
standardization, when both inputs are already standardized and equal), the BIC
score is constant, K-Means puts every sample into cluster zero and the
Fowlkes-Mallows stand-in is one exactly on identical labelings (the value of
`fowlkes_mallows_score(l, l)` for any labeling with at least one intra-cluster
pair). -/
def K0 : Kernels :=
  { procrustes := fun a b => (a, b, 0)
    score := fun _ _ => 0
    kmPredict := fun _ _ m => m.map fun _ => 0
    fowlkes := fun a b => if a = b then 1 else 0 }

/-- Comparable side of the C1 failing input: four shared samples in two
distinct populations. -/
def c1_comparable : PCA :=
  ⟨[⟨"a", "pa", [0]⟩, ⟨"b", "pa", [1]⟩, ⟨"c", "pb", [2]⟩, ⟨"d", "pb", [3]⟩], [1], 1⟩

/-- Reference side of the C1 failing input: the same four samples in four
distinct populations. -/
def c1_reference : PCA :=
  ⟨[⟨"a", "pw", [0]⟩, ⟨"b", "px", [1]⟩, ⟨"c", "py", [2]⟩, ⟨"d", "pz", [3]⟩], [1], 1⟩

/-- The comparison object `PCAComparison.init K0 c1_comparable c1_reference`
produces: the `comparable` field holds the (trivially transformed) reference
and the `reference` field holds the comparable. -/
def c1_cmp : PCAComparison :=
  ⟨c1_reference, c1_comparable, 0, ["a", "b", "c", "d"], []⟩

/-- Comparable side of the C2 counterexample: one PC, coordinates
(-2, -2, 2, 2). -/
def c2_comparable : PCA :=
  ⟨[⟨"a", "P", [-2]⟩, ⟨"b", "P", [-2]⟩, ⟨"c", "P", [2]⟩, ⟨"d", "P", [2]⟩], [1], 1⟩

/-- Reference side of the C2 counterexample: one PC, coordinates
(-1, -1, 1, 1). -/
def c2_reference : PCA :=
  ⟨[⟨"a", "P", [-1]⟩, ⟨"b", "P", [-1]⟩, ⟨"c", "P", [1]⟩, ⟨"d", "P", [1]⟩], [1], 1⟩

/-- The standardized matrix scipy returns for both C2 inputs: each input
centred at zero already, Frobenius norms 2 and 4, optimal rotation the
identity and optimal scale one, so both standardize to (-1/2, -1/2, 1/2, 1/2)
with disparity exactly zero (all values are dyadic, so the floating-point
computation is exact). -/
def c2_std : Mat := [[-(mkRat 1 2)], [-(mkRat 1 2)], [mkRat 1 2], [mkRat 1 2]]

/-- Kernel instantiation agreeing with `scipy.spatial.procrustes` on the C2
argument pair (see `c2_std`); elsewhere it is the trivial stand-in. -/
def K2 : Kernels :=
  { K0 with
    procrustes := fun a b =>
      if a = c2_reference.pc_vectors ∧ b = c2_comparable.pc_vectors then (c2_std, c2_std, 0)
      else (a, b, 0) }

/-- A two-sample, one-PC embedding used as a small self-comparison input. -/
def e2 : PCA := ⟨[⟨"a", "P", [0]⟩, ⟨"b", "P", [1]⟩], [1], 1⟩

/-- Kernel instantiation modelling a floating-point procrustes disparity that
rounds to a hair above one — the rounding scenario the specification itself
contemplates when it asks for clamping. -/
def K3 : Kernels :=
  { K0 with procrustes := fun a b => (a, b, 1 + mkRat 1 1000000) }

/-- A 100-sample single-population embedding (ids AA, AB, …, JJ in sorted
order): the C5 scenario. -/
def p100 : PCA :=
  ⟨(List.range 100).map fun i =>
      ⟨⟨[Char.ofNat (65 + i / 10), Char.ofNat (65 + i % 10)]⟩, "POP", [0]⟩, [1], 1⟩

/-- Disjoint counterpart of `e2` for the C6 witness. -/
def c6_reference : PCA := ⟨[⟨"c", "P", [0]⟩, ⟨"d", "P", [1]⟩], [1], 1⟩

/-- Ten samples a…j for the C7 witness. -/
def c7_comparable : PCA :=
  ⟨[⟨"a", "P", [0]⟩, ⟨"b", "P", [1]⟩, ⟨"c", "P", [2]⟩, ⟨"d", "P", [3]⟩, ⟨"e", "P", [4]⟩,
    ⟨"f", "P", [5]⟩, ⟨"g", "P", [6]⟩, ⟨"h", "P", [7]⟩, ⟨"i", "P", [8]⟩, ⟨"j", "P", [9]⟩],
    [1], 1⟩

/-- Ten samples sharing exactly a…e with `c7_comparable`. -/
def c7_reference : PCA :=
  ⟨[⟨"a", "P", [0]⟩, ⟨"b", "P", [1]⟩, ⟨"c", "P", [2]⟩, ⟨"d", "P", [3]⟩, ⟨"e", "P", [4]⟩,
    ⟨"p", "P", [5]⟩, ⟨"q", "P", [6]⟩, ⟨"r", "P", [7]⟩, ⟨"s", "P", [8]⟩, ⟨"t", "P", [9]⟩],
    [1], 1⟩

/-- A four-sample, two-PC, two-population embedding for the self-comparison
witnesses. -/
def e4 : PCA :=
  ⟨[⟨"a", "P1", [0, 1]⟩, ⟨"b", "P1", [1, 0]⟩, ⟨"c", "P2", [2, 2]⟩, ⟨"d", "P2", [3, 3]⟩],
    [mkRat 1 2, mkRat 1 2], 2⟩

/-- A four-sample embedding with exactly two distinct populations: the C10
witness input. -/
def p2 : PCA :=
  ⟨[⟨"a", "P1", [0]⟩, ⟨"b", "P1", [1]⟩, ⟨"c", "P2", [2]⟩, ⟨"d", "P2", [3]⟩], [1], 1⟩

/-- The comparison object of the trivial-kernel self comparison of `e2`. -/
def e2_cmp : PCAComparison := ⟨e2, e2, 0, ["a", "b"], []⟩

/-- The comparison object of the trivial-kernel self comparison of `e4`. -/
def e4_cmp : PCAComparison := ⟨e4, e4, 0, ["a", "b", "c", "d"], []⟩

/-- The comparison object `PCAComparison.init K2 c2_comparable c2_reference`
produces: both stored objects carry the standardized matrix `c2_std`, not the
raw post-filter coordinates. -/
def c2_cmp : PCAComparison :=
  ⟨⟨[⟨"a", "P", [-(mkRat 1 2)]⟩, ⟨"b", "P", [-(mkRat 1 2)]⟩,
      ⟨"c", "P", [mkRat 1 2]⟩, ⟨"d", "P", [mkRat 1 2]⟩], [1], 1⟩,
   ⟨[⟨"a", "P", [-(mkRat 1 2)]⟩, ⟨"b", "P", [-(mkRat 1 2)]⟩,
      ⟨"c", "P", [mkRat 1 2]⟩, ⟨"d", "P", [mkRat 1 2]⟩], [1], 1⟩,
   0, ["a", "b", "c", "d"], []⟩

/-!
Helper lemmas about the list-level plumbing of the embedding.
-/

/-- Mapping a left projection over a `zipWith` of equal-length lists. -/
theorem map_zipWith_left {α β γ δ : Type} (f : α → β → γ) (p : γ → δ) (q : α → δ)
    (hpq : ∀ a b, p (f a b) = q a) :
    ∀ (l1 : List α) (l2 : List β), l1.length = l2.length →
      (List.zipWith f l1 l2).map p = l1.map q := by
  intro l1
  induction l1 with
  | nil => intro l2 h; simp
  | cons a l1 ih =>
    intro l2 h
    cases l2 with
    | nil => simp at h
    | cons b l2 =>
      simp only [List.zipWith_cons_cons, List.map_cons, hpq]
      exact congrArg _ (ih l2 (by simpa using h))

/-- Mapping a right projection over a `zipWith` of equal-length lists. -/
theorem map_zipWith_right {α β γ δ : Type} (f : α → β → γ) (p : γ → δ) (q : β → δ)
    (hpq : ∀ a b, p (f a b) = q b) :
    ∀ (l1 : List α) (l2 : List β), l1.length = l2.length →
      (List.zipWith f l1 l2).map p = l2.map q := by
  intro l1
  induction l1 with
  | nil => intro l2 h; cases l2 with
    | nil => simp
    | cons b l2 => simp at h
  | cons a l1 ih =>
    intro l2 h
    cases l2 with
    | nil => simp at h
    | cons b l2 =>
      simp only [List.zipWith_cons_cons, List.map_cons, hpq]
      exact congrArg _ (ih l2 (by simpa using h))

/-- Filtering through a projection commutes with mapping the projection. -/
theorem map_filter_comp {α β : Type} (f : α → β) (q : β → Bool) :
    ∀ l : List α, (l.filter fun a => q (f a)).map f = (l.map f).filter q := by
  intro l
  induction l with
  | nil => rfl
  | cons a l ih =>
    by_cases h : q (f a)
    · simp [List.filter_cons, h, ih]
    · simp [List.filter_cons, h, ih]

/-- Characters with equal code points are equal. -/
theorem charToNat_inj {a b : Char} (h : a.toNat = b.toNat) : a = b :=
  Char.ext (UInt32.ext h)

/-- The code-point order on character lists is irreflexive. -/
theorem charListLt_irrefl : ∀ l : List Char, charListLt l l = false := by
  intro l
  induction l with
  | nil => rfl
  | cons a l ih => simp [charListLt, ih]

/-- The code-point order on character lists is transitive. -/
theorem charListLt_trans : ∀ l1 l2 l3 : List Char,
    charListLt l1 l2 = true → charListLt l2 l3 = true → charListLt l1 l3 = true := by
  intro l1
  induction l1 with
  | nil =>
    intro l2 l3 h12 h23
    cases l3 with
    | nil => cases l2 <;> simp [charListLt] at h12 h23
    | cons c cs => simp [charListLt]
  | cons a as ih =>
    intro l2 l3 h12 h23
    cases l2 with
    | nil => simp [charListLt] at h12
    | cons b bs =>
      cases l3 with
      | nil => simp [charListLt] at h23
      | cons c cs =>
        simp only [charListLt] at h12 h23 ⊢
        by_cases hab : a.toNat < b.toNat
        · by_cases hbc : b.toNat < c.toNat
          · rw [if_pos (by omega)]
          · rw [if_neg hbc] at h23
            by_cases hcb : c.toNat < b.toNat
            · rw [if_pos hcb] at h23
              exact Bool.noConfusion h23
            · rw [if_pos (by omega)]
        · rw [if_neg hab] at h12
          by_cases hba : b.toNat < a.toNat
          · rw [if_pos hba] at h12
            exact Bool.noConfusion h12
          · rw [if_neg hba] at h12
            by_cases hbc : b.toNat < c.toNat
            · rw [if_pos (by omega)]
            · rw [if_neg hbc] at h23
              by_cases hcb : c.toNat < b.toNat
              · rw [if_pos hcb] at h23
                exact Bool.noConfusion h23
              · rw [if_neg hcb] at h23
                rw [if_neg (by omega), if_neg (by omega)]
                exact ih bs cs h12 h23

/-- The code-point order on character lists is asymmetric. -/
theorem charListLt_asymm : ∀ l1 l2 : List Char,
    charListLt l1 l2 = true → charListLt l2 l1 = false := by
  intro l1 l2 h
  by_contra hcon
  rw [Bool.not_eq_false] at hcon
  have := charListLt_trans l1 l2 l1 h hcon
  rw [charListLt_irrefl] at this
  exact Bool.noConfusion this

/-- Strict string order gives distinctness. -/
theorem strLtP_ne {a b : String} (h : strLtP a b) : a ≠ b := by
  intro hab
  subst hab
  unfold strLtP strLt at h
  rw [charListLt_irrefl] at h
  exact Bool.noConfusion h

/-- Strict string order gives the weak order. -/
theorem strLtP_le {a b : String} (h : strLtP a b) : strLeP a b := by
  unfold strLtP at h
  unfold strLeP strLe
  rw [h, Bool.true_or]

instance : IsTrans String strLtP :=
  ⟨fun _ _ _ h1 h2 => charListLt_trans _ _ _ h1 h2⟩

/-- The weak string order is antisymmetric. -/
theorem strLeP_antisymm {a b : String} (h1 : strLeP a b) (h2 : strLeP b a) : a = b := by
  unfold strLeP strLe at h1 h2
  rw [Bool.or_eq_true] at h1 h2
  rcases h1 with h1 | h1
  · rcases h2 with h2 | h2
    · have := charListLt_asymm _ _ h1
      unfold strLt at h2 this
      rw [this] at h2
      exact Bool.noConfusion h2
    · exact (String.ext (eq_of_beq h2)).symm
  · exact String.ext (eq_of_beq h1)

instance : IsAntisymm String strLeP := ⟨fun _ _ h1 h2 => strLeP_antisymm h1 h2⟩

/-- Sample ids of a filtered row table. -/
theorem sample_ids_filter (rows : List Row) (q : String → Bool) :
    ((rows.filter fun row => q row.sample_id).map Row.sample_id) =
      (rows.map Row.sample_id).filter q :=
  map_filter_comp Row.sample_id q rows

/-- The executable sortedness check is the strict chain. -/
theorem idsSortedStrict_iff_chain : ∀ l : List String,
    idsSortedStrict l = true ↔ List.Chain' strLtP l := by
  intro l
  induction l with
  | nil => simp [idsSortedStrict]
  | cons a t ih =>
    cases t with
    | nil => simp [idsSortedStrict]
    | cons b t2 =>
      rw [List.chain'_cons, ← ih]
      show (strLt a b && idsSortedStrict (b :: t2)) = true ↔ _
      rw [Bool.and_eq_true]
      exact Iff.rfl

/-- A strictly increasing sample-id chain gives the pairwise strict order. -/
theorem PCA.WF.ids_pairwise_lt {p : PCA} (h : p.WF) :
    p.sample_ids.Pairwise strLtP :=
  List.chain'_iff_pairwise.mp ((idsSortedStrict_iff_chain _).mp h.1)

/-- A well-formed object has weakly sorted sample ids. -/
theorem PCA.WF.ids_sorted_le {p : PCA} (h : p.WF) :
    p.sample_ids.Pairwise strLeP :=
  h.ids_pairwise_lt.imp strLtP_le

/-- A well-formed object has no duplicate sample ids. -/
theorem PCA.WF.ids_nodup {p : PCA} (h : p.WF) : p.sample_ids.Nodup :=
  h.ids_pairwise_lt.imp strLtP_ne

/-- The rows of a well-formed object are sorted under `rowLe`. -/
theorem PCA.WF.rows_sorted {p : PCA} (h : p.WF) : p.rows.Pairwise rowLe := by
  have hle := h.ids_sorted_le
  unfold PCA.sample_ids at hle
  have hp := (List.pairwise_map (f := Row.sample_id) (l := p.rows)).mp hle
  exact hp.imp fun hab => hab

/-- `PCA.__init__` on an already canonically sorted, shape-consistent table is
the plain structure constructor. -/
theorem mkPCA_eq_ok (rows : List Row) (ev : List ℚ) (n : ℕ)
    (hs : rows.Pairwise rowLe) (hw : ∀ r ∈ rows, r.pcs.length = n)
    (he : ev.length = n) :
    mkPCA rows ev n = .ok ⟨rows, ev, n⟩ := by
  unfold mkPCA
  rw [if_neg (by simpa using he), if_neg]
  · rw [List.Sorted.insertionSort_eq hs]
  · simp only [List.all_eq_true, decide_eq_true_eq, not_not]
    intro r hr
    exact hw r hr

/-- Two strictly sorted lists with the same members are equal. -/
theorem sorted_lt_ext {l1 l2 : List String}
    (h1 : l1.Pairwise strLtP) (h2 : l2.Pairwise strLtP)
    (hm : ∀ s, s ∈ l1 ↔ s ∈ l2) : l1 = l2 := by
  have n1 : l1.Nodup := h1.imp strLtP_ne
  have n2 : l2.Nodup := h2.imp strLtP_ne
  have hp : l1.Perm l2 := (List.perm_ext_iff_of_nodup n1 n2).mpr hm
  exact List.eq_of_perm_of_sorted hp (h1.imp strLtP_le) (h2.imp strLtP_le)

/-- Membership in the shared sample ids is membership in both inputs. -/
theorem mem_shared_sample_ids (c r : PCA) (s : String) :
    s ∈ shared_sample_ids c r ↔ s ∈ c.sample_ids ∧ s ∈ r.sample_ids := by
  unfold shared_sample_ids
  rw [(List.perm_insertionSort _ _).mem_iff, List.mem_dedup, List.mem_filter]
  simp

/-- For a well-formed comparable the shared-id computation is just the
membership filter of its (already sorted, duplicate-free) id column. -/
theorem shared_sample_ids_eq (c r : PCA) (hc : c.WF) :
    shared_sample_ids c r =
      c.sample_ids.filter fun s => decide (s ∈ r.sample_ids) := by
  unfold shared_sample_ids
  rw [List.Nodup.dedup (hc.ids_nodup.filter _)]
  exact List.Sorted.insertionSort_eq ((hc.ids_sorted_le).filter _)

/-- The shared sample ids of well-formed inputs are strictly sorted. -/
theorem shared_sample_ids_pairwise_lt (c r : PCA) (hc : c.WF) :
    (shared_sample_ids c r).Pairwise strLtP := by
  rw [shared_sample_ids_eq c r hc]
  exact hc.ids_pairwise_lt.filter _

/-- `filter_samples` on a well-formed object keeps the filtered table as is. -/
theorem filter_samples_eq_ok (p : PCA) (keep : List String) (h : p.WF) :
    filter_samples p keep =
      .ok ⟨p.rows.filter fun row => decide (row.sample_id ∈ keep),
        p.explained_variances, p.n_pcs⟩ := by
  unfold filter_samples
  exact mkPCA_eq_ok _ _ _ (h.rows_sorted.filter _)
    (fun r hr => h.2.1 r (List.mem_of_mem_filter hr)) h.2.2

/-- The row count of a table is the length of its id column. -/
theorem PCA.rows_length_eq_ids (p : PCA) : p.rows.length = p.sample_ids.length :=
  (List.length_map _ _).symm

/-- Special case of `map_filter_comp` for membership filters on rows. -/
theorem sample_ids_filter_mem (rows : List Row) (keep : List String) :
    ((rows.filter fun row => decide (row.sample_id ∈ keep)).map Row.sample_id) =
      (rows.map Row.sample_id).filter fun s => decide (s ∈ keep) :=
  map_filter_comp Row.sample_id (fun s => decide (s ∈ keep)) rows

/-- The id column of the clipped comparable is exactly the shared id list. -/
theorem clipped_comparable_ids (c r : PCA) (hc : c.WF) :
    (clipped_comparable c r).sample_ids = shared_sample_ids c r := by
  rw [show (clipped_comparable c r).sample_ids =
      (c.sample_ids.filter fun s => decide (s ∈ shared_sample_ids c r)) from
    sample_ids_filter_mem c.rows _]
  have hcongr : ∀ s ∈ c.sample_ids,
      (decide (s ∈ shared_sample_ids c r)) = (decide (s ∈ r.sample_ids)) := by
    intro s hs
    simp only [decide_eq_decide]
    rw [mem_shared_sample_ids]
    exact ⟨fun h => h.2, fun h => ⟨hs, h⟩⟩
  rw [List.filter_congr hcongr]
  exact (shared_sample_ids_eq c r hc).symm

/-- The id column of the clipped reference is exactly the shared id list. -/
theorem clipped_reference_ids (c r : PCA) (hc : c.WF) (hr : r.WF) :
    (clipped_reference c r).sample_ids = shared_sample_ids c r := by
  rw [show (clipped_reference c r).sample_ids =
      (r.sample_ids.filter fun s => decide (s ∈ shared_sample_ids c r)) from
    sample_ids_filter_mem r.rows _]
  apply sorted_lt_ext
  · exact hr.ids_pairwise_lt.filter _
  · exact shared_sample_ids_pairwise_lt c r hc
  · intro s
    simp only [List.mem_filter, decide_eq_true_eq, mem_shared_sample_ids]
    exact ⟨fun h => h.2, fun h => ⟨h.2, h⟩⟩

/-- The clipped comparable is well-formed. -/
theorem clipped_comparable_WF (c r : PCA) (hc : c.WF) :
    (clipped_comparable c r).WF := by
  refine ⟨?_, ?_, hc.2.2⟩
  · rw [idsSortedStrict_iff_chain, List.chain'_iff_pairwise, clipped_comparable_ids c r hc]
    exact shared_sample_ids_pairwise_lt c r hc
  · intro row hrow
    exact hc.2.1 row (List.mem_of_mem_filter hrow)

/-- The clipped reference is well-formed. -/
theorem clipped_reference_WF (c r : PCA) (hc : c.WF) (hr : r.WF) :
    (clipped_reference c r).WF := by
  refine ⟨?_, ?_, hr.2.2⟩
  · rw [idsSortedStrict_iff_chain, List.chain'_iff_pairwise, clipped_reference_ids c r hc hr]
    exact shared_sample_ids_pairwise_lt c r hc
  · intro row hrow
    exact hr.2.1 row (List.mem_of_mem_filter hrow)

/-- Under well-formedness the clipping step evaluates to the two filtered
tables plus the pair of optional sample-loss warnings. -/
theorem clip_eq_ok (c r : PCA) (hc : c.WF) (hr : r.WF) (hn : c.n_pcs = r.n_pcs) :
    _clip_missing_samples_for_comparison c r =
      .ok (clipped_comparable c r, clipped_reference c r,
        (_check_sample_clipping c (clipped_comparable c r)).toList ++
        (_check_sample_clipping r (clipped_reference c r)).toList) := by
  have hfc : filter_samples c (shared_sample_ids c r) = .ok (clipped_comparable c r) :=
    filter_samples_eq_ok c _ hc
  have hfr : filter_samples r (shared_sample_ids c r) = .ok (clipped_reference c r) :=
    filter_samples_eq_ok r _ hr
  have hlen : (clipped_comparable c r).rows.length = (clipped_reference c r).rows.length := by
    rw [PCA.rows_length_eq_ids, PCA.rows_length_eq_ids,
      clipped_comparable_ids c r hc, clipped_reference_ids c r hc hr]
  have hshape : (clipped_comparable c r).shape = (clipped_reference c r).shape := by
    unfold PCA.shape
    rw [Prod.mk.injEq]
    exact ⟨hlen, hn⟩
  simp only [_clip_missing_samples_for_comparison, hfc, hfr]
  rw [if_neg (by simpa using hshape)]

/-- Pairwise `rowLe` follows from the pairwise order of the id column. -/
theorem rows_pairwise_of_ids {rows : List Row}
    (h : (rows.map Row.sample_id).Pairwise strLeP) :
    rows.Pairwise rowLe := by
  have hp := (List.pairwise_map (f := Row.sample_id) (l := rows)).mp h
  exact hp.imp fun hab => hab

/-- The id column is unchanged by a PC-data replacement. -/
theorem zip_updRow_ids (rows : List Row) (mat : Mat) (h : rows.length = mat.length) :
    (List.zipWith updRow rows mat).map Row.sample_id = rows.map Row.sample_id :=
  map_zipWith_left updRow Row.sample_id Row.sample_id (fun _ _ => rfl) rows mat h

/-- The population column is unchanged by a PC-data replacement. -/
theorem zip_updRow_populations (rows : List Row) (mat : Mat) (h : rows.length = mat.length) :
    (List.zipWith updRow rows mat).map Row.population = rows.map Row.population :=
  map_zipWith_left updRow Row.population Row.population (fun _ _ => rfl) rows mat h

/-- The PC matrix of a PC-data replacement is the replacement matrix. -/
theorem zip_updRow_pcs (rows : List Row) (mat : Mat) (h : rows.length = mat.length) :
    (List.zipWith updRow rows mat).map Row.pcs = mat :=
  (map_zipWith_right updRow Row.pcs id (fun _ _ => rfl) rows mat h).trans (List.map_id mat)

/-- `_numpy_to_pca` on a shape-consistent matrix over a sorted table is the
plain PC-data replacement. -/
theorem numpy_to_pca_eq_ok (mat : Mat) (rows : List Row) (ev : List ℚ) (n : ℕ)
    (hlen : mat.length = rows.length) (hw : ∀ x ∈ mat, x.length = n)
    (hs : rows.Pairwise rowLe) (he : ev.length = n) :
    _numpy_to_pca mat rows ev n = .ok ⟨List.zipWith updRow rows mat, ev, n⟩ := by
  unfold _numpy_to_pca
  rw [if_neg (by simp [hlen])]
  apply mkPCA_eq_ok
  · apply rows_pairwise_of_ids
    rw [zip_updRow_ids rows mat hlen.symm]
    exact List.pairwise_map.mpr (hs.imp fun hab => hab)
  · intro row hrow
    have hmem : row.pcs ∈ (List.zipWith updRow rows mat).map Row.pcs :=
      List.mem_map_of_mem _ hrow
    rw [zip_updRow_pcs rows mat hlen.symm] at hmem
    exact hw _ hmem
  · exact he

/-- For well-formed, dimension-compatible inputs with a non-empty shared
sample set and a shape-correct procrustes call, `match_and_transform`
succeeds and returns the two rebuilt objects, the procrustes disparity and
the clipping warnings — in the source return order: standardized reference
first, transformed comparable second. -/
theorem match_and_transform_eq_ok (K : Kernels) (c r : PCA)
    (hc : c.WF) (hr : r.WF) (hn : c.n_pcs = r.n_pcs)
    (hne : shared_sample_ids c r ≠ [])
    (hK : K.ShapeOkAt (clipped_reference c r).pc_vectors
      (clipped_comparable c r).pc_vectors r.n_pcs) :
    match_and_transform K c r =
      .ok (built_std_ref K c r, built_trans_comp K c r,
        (K.procrustes (clipped_reference c r).pc_vectors
          (clipped_comparable c r).pc_vectors).2.2,
        (_check_sample_clipping c (clipped_comparable c r)).toList ++
        (_check_sample_clipping r (clipped_reference c r)).toList) := by
  obtain ⟨h1len, h2len, h1w, h2w⟩ := hK
  have hC2ids := clipped_comparable_ids c r hc
  have hR2ids := clipped_reference_ids c r hc hr
  have hidseq : (clipped_comparable c r).sample_ids = (clipped_reference c r).sample_ids := by
    rw [hC2ids, hR2ids]
  have hC2len : (clipped_comparable c r).rows.length = (shared_sample_ids c r).length := by
    rw [PCA.rows_length_eq_ids, hC2ids]
  have hR2len : (clipped_reference c r).rows.length = (shared_sample_ids c r).length := by
    rw [PCA.rows_length_eq_ids, hR2ids]
  have hshape : (clipped_comparable c r).shape = (clipped_reference c r).shape := by
    unfold PCA.shape
    rw [Prod.mk.injEq]
    exact ⟨hC2len.trans hR2len.symm, hn⟩
  have hC2pcvlen : (clipped_comparable c r).pc_vectors.length =
      (clipped_comparable c r).rows.length := List.length_map _ _
  have hR2pcvlen : (clipped_reference c r).pc_vectors.length =
      (clipped_reference c r).rows.length := List.length_map _ _
  have hnonzero : ¬ ((clipped_comparable c r).rows.length = 0) := by
    rw [hC2len]
    intro h0
    exact hne (List.length_eq_zero.mp h0)
  have hnum1 : _numpy_to_pca
      (K.procrustes (clipped_reference c r).pc_vectors (clipped_comparable c r).pc_vectors).1
      (clipped_reference c r).rows (clipped_reference c r).explained_variances
      (clipped_reference c r).n_pcs = .ok (built_std_ref K c r) :=
    numpy_to_pca_eq_ok _ _ _ _ (h1len.trans hR2pcvlen) h1w
      (clipped_reference_WF c r hc hr).rows_sorted hr.2.2
  have hw2 : ∀ x ∈ (K.procrustes (clipped_reference c r).pc_vectors
      (clipped_comparable c r).pc_vectors).2.1, x.length = c.n_pcs :=
    fun x hx => hn.symm ▸ h2w x hx
  have hnum2 : _numpy_to_pca
      (K.procrustes (clipped_reference c r).pc_vectors (clipped_comparable c r).pc_vectors).2.1
      (clipped_comparable c r).rows (clipped_comparable c r).explained_variances
      (clipped_comparable c r).n_pcs = .ok (built_trans_comp K c r) :=
    numpy_to_pca_eq_ok _ _ _ _ (h2len.trans hC2pcvlen) hw2
      (clipped_comparable_WF c r hc).rows_sorted hc.2.2
  have hbuiltids : (built_std_ref K c r).sample_ids = (built_trans_comp K c r).sample_ids := by
    unfold built_std_ref built_trans_comp PCA.sample_ids
    rw [zip_updRow_ids _ _ (hR2pcvlen ▸ h1len).symm,
      zip_updRow_ids _ _ (hC2pcvlen ▸ h2len).symm]
    exact hidseq.symm
  simp only [match_and_transform, clip_eq_ok c r hc hr hn]
  rw [if_neg (by simpa using hidseq)]
  rw [if_neg (by simpa using hshape)]
  rw [if_neg hnonzero]
  simp only [hnum1, hnum2]
  rw [if_neg (by simpa using hbuiltids)]

/-- When the two inputs disagree on the number of PCs, the clipping `assert`
on equal matrix shapes fails. -/
theorem clip_eq_assert_error (c r : PCA) (hc : c.WF) (hr : r.WF)
    (hne : c.n_pcs ≠ r.n_pcs) :
    _clip_missing_samples_for_comparison c r = .error "AssertionError" := by
  have hfc : filter_samples c (shared_sample_ids c r) = .ok (clipped_comparable c r) :=
    filter_samples_eq_ok c _ hc
  have hfr : filter_samples r (shared_sample_ids c r) = .ok (clipped_reference c r) :=
    filter_samples_eq_ok r _ hr
  have hshape : (clipped_comparable c r).shape ≠ (clipped_reference c r).shape := by
    unfold PCA.shape
    intro hcontra
    rw [Prod.mk.injEq] at hcontra
    exact hne hcontra.2
  simp only [_clip_missing_samples_for_comparison, hfc, hfr]
  rw [if_pos hshape]

/-- Inversion of a successful `_numpy_to_pca` over a sorted table: the result
is the PC-data replacement and the matrix row count matches the table. -/
theorem numpy_to_pca_ok_inv (mat : Mat) (rows : List Row) (ev : List ℚ) (n : ℕ)
    (p : PCA) (hs : rows.Pairwise rowLe)
    (h : _numpy_to_pca mat rows ev n = .ok p) :
    p = ⟨List.zipWith updRow rows mat, ev, n⟩ ∧ mat.length = rows.length := by
  unfold _numpy_to_pca mkPCA at h
  split at h
  · exact absurd h (by simp)
  next hlen =>
    rw [not_not] at hlen
    split at h
    · exact absurd h (by simp)
    split at h
    · exact absurd h (by simp)
    refine ⟨?_, hlen⟩
    have hzs : (List.zipWith updRow rows mat).Pairwise rowLe := by
      apply rows_pairwise_of_ids
      rw [zip_updRow_ids rows mat hlen.symm]
      exact List.pairwise_map.mpr (hs.imp fun hab => hab)
    rw [List.Sorted.insertionSort_eq hzs] at h
    exact (Except.ok.inj h).symm

/-- Inversion of a successful `match_and_transform` on well-formed inputs:
the returned objects are exactly the rebuilt clipped tables (standardized
reference first), the disparity is the procrustes disparity and the warnings
are the clipping warnings. -/
theorem match_and_transform_ok_inv (K : Kernels) (c r : PCA) (sr tc : PCA)
    (d : ℚ) (ws : List ClipWarning) (hc : c.WF) (hr : r.WF)
    (h : match_and_transform K c r = .ok (sr, tc, d, ws)) :
    sr = built_std_ref K c r ∧ tc = built_trans_comp K c r ∧
    d = (K.procrustes (clipped_reference c r).pc_vectors
      (clipped_comparable c r).pc_vectors).2.2 ∧
    ws = (_check_sample_clipping c (clipped_comparable c r)).toList ++
      (_check_sample_clipping r (clipped_reference c r)).toList ∧
    (K.procrustes (clipped_reference c r).pc_vectors
      (clipped_comparable c r).pc_vectors).1.length = (clipped_reference c r).rows.length ∧
    (K.procrustes (clipped_reference c r).pc_vectors
      (clipped_comparable c r).pc_vectors).2.1.length = (clipped_comparable c r).rows.length ∧
    (clipped_comparable c r).rows.length ≠ 0 := by
  have hn : c.n_pcs = r.n_pcs := by
    by_contra hnpc
    simp only [match_and_transform, clip_eq_assert_error c r hc hr hnpc] at h
    exact Except.noConfusion h
  have hC2ids := clipped_comparable_ids c r hc
  have hR2ids := clipped_reference_ids c r hc hr
  have hidseq : (clipped_comparable c r).sample_ids = (clipped_reference c r).sample_ids := by
    rw [hC2ids, hR2ids]
  have hC2len : (clipped_comparable c r).rows.length = (shared_sample_ids c r).length := by
    rw [PCA.rows_length_eq_ids, hC2ids]
  have hR2len : (clipped_reference c r).rows.length = (shared_sample_ids c r).length := by
    rw [PCA.rows_length_eq_ids, hR2ids]
  have hshape : (clipped_comparable c r).shape = (clipped_reference c r).shape := by
    unfold PCA.shape
    rw [Prod.mk.injEq]
    exact ⟨hC2len.trans hR2len.symm, hn⟩
  have hC2pcvlen : (clipped_comparable c r).pc_vectors.length =
      (clipped_comparable c r).rows.length := List.length_map _ _
  have hR2pcvlen : (clipped_reference c r).pc_vectors.length =
      (clipped_reference c r).rows.length := List.length_map _ _
  simp only [match_and_transform, clip_eq_ok c r hc hr hn] at h
  rw [if_neg (by simpa using hidseq)] at h
  rw [if_neg (by simpa using hshape)] at h
  split at h
  · exact absurd h (by simp)
  next hlen0 =>
    split at h
    · exact absurd h (by simp)
    next std heq1 =>
      split at h
      · exact absurd h (by simp)
      next trans heq2 =>
        split at h
        · exact absurd h (by simp)
        next hfinal =>
          obtain ⟨hstd, hm1len⟩ := numpy_to_pca_ok_inv _ _ _ _ _
            (clipped_reference_WF c r hc hr).rows_sorted heq1
          obtain ⟨htrans, hm2len⟩ := numpy_to_pca_ok_inv _ _ _ _ _
            (clipped_comparable_WF c r hc).rows_sorted heq2
          have hinj := Except.ok.inj h
          rw [Prod.mk.injEq, Prod.mk.injEq, Prod.mk.injEq] at hinj
          obtain ⟨hsr, htc, hd, hws⟩ := hinj
          refine ⟨?_, ?_, hd.symm, hws.symm, hm1len, hm2len, hlen0⟩
          · rw [← hsr, hstd]; rfl
          · rw [← htc, htrans]; rfl

/-- Projections of the rebuilt standardized reference, given the procrustes
output has one row per clipped sample. -/
theorem built_std_ref_proj (K : Kernels) (c r : PCA)
    (hm1len : (K.procrustes (clipped_reference c r).pc_vectors
      (clipped_comparable c r).pc_vectors).1.length = (clipped_reference c r).rows.length) :
    (built_std_ref K c r).sample_ids = (clipped_reference c r).sample_ids ∧
    (built_std_ref K c r).populations = (clipped_reference c r).populations ∧
    (built_std_ref K c r).pc_vectors = (K.procrustes (clipped_reference c r).pc_vectors
      (clipped_comparable c r).pc_vectors).1 := by
  unfold built_std_ref PCA.sample_ids PCA.populations PCA.pc_vectors
  exact ⟨zip_updRow_ids _ _ hm1len.symm, zip_updRow_populations _ _ hm1len.symm,
    zip_updRow_pcs _ _ hm1len.symm⟩

/-- Projections of the rebuilt transformed comparable, given the procrustes
output has one row per clipped sample. -/
theorem built_trans_comp_proj (K : Kernels) (c r : PCA)
    (hm2len : (K.procrustes (clipped_reference c r).pc_vectors
      (clipped_comparable c r).pc_vectors).2.1.length = (clipped_comparable c r).rows.length) :
    (built_trans_comp K c r).sample_ids = (clipped_comparable c r).sample_ids ∧
    (built_trans_comp K c r).populations = (clipped_comparable c r).populations ∧
    (built_trans_comp K c r).pc_vectors = (K.procrustes (clipped_reference c r).pc_vectors
      (clipped_comparable c r).pc_vectors).2.1 := by
  unfold built_trans_comp PCA.sample_ids PCA.populations PCA.pc_vectors
  exact ⟨zip_updRow_ids _ _ hm2len.symm, zip_updRow_populations _ _ hm2len.symm,
    zip_updRow_pcs _ _ hm2len.symm⟩

/-- Inversion of a successful `PCAComparison.__init__` on well-formed inputs:
all stored fields, spelt out.  Note the swap: the `comparable` field carries
the standardized reference and the `reference` field carries the transformed
comparable. -/
theorem init_ok_inv (K : Kernels) (c r : PCA) (cmp : PCAComparison)
    (hc : c.WF) (hr : r.WF) (h : PCAComparison.init K c r = .ok cmp) :
    cmp.comparable = built_std_ref K c r ∧
    cmp.reference = built_trans_comp K c r ∧
    cmp.disparity = (K.procrustes (clipped_reference c r).pc_vectors
      (clipped_comparable c r).pc_vectors).2.2 ∧
    cmp.sample_ids = shared_sample_ids c r ∧
    cmp.comparable.sample_ids = shared_sample_ids c r ∧
    cmp.reference.sample_ids = shared_sample_ids c r ∧
    cmp.comparable.pc_vectors = (K.procrustes (clipped_reference c r).pc_vectors
      (clipped_comparable c r).pc_vectors).1 ∧
    cmp.reference.pc_vectors = (K.procrustes (clipped_reference c r).pc_vectors
      (clipped_comparable c r).pc_vectors).2.1 ∧
    cmp.comparable.populations = (clipped_reference c r).populations ∧
    cmp.reference.populations = (clipped_comparable c r).populations ∧
    cmp.warnings = (_check_sample_clipping c (clipped_comparable c r)).toList ++
      (_check_sample_clipping r (clipped_reference c r)).toList := by
  unfold PCAComparison.init at h
  split at h
  · exact absurd h (by simp)
  next fst snd dd ws heq =>
    obtain ⟨hsr, htc, hd, hws, hm1len, hm2len, _⟩ :=
      match_and_transform_ok_inv K c r fst snd dd ws hc hr heq
    obtain ⟨hids1, hpop1, hpcv1⟩ := built_std_ref_proj K c r hm1len
    obtain ⟨hids2, hpop2, hpcv2⟩ := built_trans_comp_proj K c r hm2len
    have hcmp := (Except.ok.inj h).symm
    subst hcmp
    subst hsr htc hd hws
    refine ⟨rfl, rfl, rfl, ?_, ?_, ?_, hpcv1, hpcv2, hpop1, hpop2, rfl⟩
    · exact hids1.trans (clipped_reference_ids c r hc hr)
    · exact hids1.trans (clipped_reference_ids c r hc hr)
    · exact hids2.trans (clipped_comparable_ids c r hc)

/-- The square-root model is non-negative. -/
theorem ratSqrt_nonneg (x : ℚ) : 0 ≤ ratSqrt x := by
  unfold ratSqrt
  positivity

/-- The square-root model of zero. -/
theorem ratSqrt_zero : ratSqrt 0 = 0 := by decide

/-- The square-root model of one. -/
theorem ratSqrt_one : ratSqrt 1 = 1 := by decide

/-- The square-root model maps the unit interval into the unit interval. -/
theorem ratSqrt_le_one (x : ℚ) (h0 : 0 ≤ x) (h1 : x ≤ 1) : ratSqrt x ≤ 1 := by
  unfold ratSqrt
  rw [div_le_one (by exact_mod_cast x.den_pos)]
  have hnum : x.num ≤ (x.den : ℤ) := by
    rw [Rat.le_def] at h1
    simpa using h1
  have hnat : x.num.toNat ≤ x.den := by omega
  have hsq : Nat.sqrt (x.num.toNat * x.den) ≤ x.den := by
    calc Nat.sqrt (x.num.toNat * x.den) ≤ Nat.sqrt (x.den * x.den) :=
          Nat.sqrt_le_sqrt (Nat.mul_le_mul_right _ hnat)
      _ = x.den := Nat.sqrt_eq x.den
  exact_mod_cast hsq

/-- The support map is positive for non-negative distances. -/
theorem supportOf_pos (d : ℚ) (h : 0 ≤ d) : 0 < supportOf d := by
  unfold supportOf
  positivity

/-- The support map is at most one for non-negative distances. -/
theorem supportOf_le_one (d : ℚ) (h : 0 ≤ d) : supportOf d ≤ 1 := by
  unfold supportOf
  rw [div_le_one (by linarith)]
  linarith

/-- The support map is strictly decreasing on non-negative distances. -/
theorem supportOf_strict_anti (d1 d2 : ℚ) (h0 : 0 ≤ d1) (h : d1 < d2) :
    supportOf d2 < supportOf d1 := by
  unfold supportOf
  have h1 : (0 : ℚ) < 1 + d1 := by linarith
  have h2 : (1 : ℚ) + d1 < 1 + d2 := by linarith
  exact one_div_lt_one_div_of_lt h1 h2

/-- Squared distances are non-negative. -/
theorem sqDist_nonneg (a : List ℚ) : ∀ b : List ℚ, 0 ≤ sqDist a b := by
  induction a with
  | nil => intro b; cases b <;> simp [sqDist]
  | cons x a ih =>
    intro b
    cases b with
    | nil => simp [sqDist]
    | cons y b =>
      have hrest := ih b
      unfold sqDist at hrest ⊢
      simp only [List.zipWith_cons_cons, List.sum_cons]
      have hsq : (0 : ℚ) ≤ (x - y) ^ 2 := sq_nonneg _
      linarith

/-- The squared distance from a row to itself is zero. -/
theorem sqDist_self (a : List ℚ) : sqDist a a = 0 := by
  unfold sqDist
  induction a with
  | nil => rfl
  | cons x a ih =>
    simp only [List.zipWith_cons_cons, List.sum_cons]
    rw [show ((x - x) ^ 2 : ℚ) = 0 by ring]
    simpa using ih

/-- The fold inside `bestParam` returns the seed or a list element, and its
score is maximal among the seed and all list elements. -/
theorem bestParam_foldl_spec (score : ℕ → ℚ) :
    ∀ (ks : List ℕ) (b : ℕ),
      (ks.foldl (fun best cand => if score best < score cand then cand else best) b = b ∨
        ks.foldl (fun best cand => if score best < score cand then cand else best) b ∈ ks) ∧
      score b ≤ score (ks.foldl (fun best cand => if score best < score cand then cand else best) b) ∧
      ∀ x ∈ ks, score x ≤
        score (ks.foldl (fun best cand => if score best < score cand then cand else best) b) := by
  intro ks
  induction ks with
  | nil =>
    intro b
    exact ⟨Or.inl rfl, le_refl _, by simp⟩
  | cons c ks ih =>
    intro b
    simp only [List.foldl_cons]
    obtain ⟨hmem, hle, hall⟩ := ih (if score b < score c then c else b)
    refine ⟨?_, ?_, ?_⟩
    · rcases hmem with hmem | hmem
      · by_cases hbc : score b < score c
        · right
          rw [hmem, if_pos hbc]
          exact List.mem_cons_self c ks
        · left
          rw [hmem, if_neg hbc]
      · right
        exact List.mem_cons_of_mem c hmem
    · refine le_trans ?_ hle
      by_cases hbc : score b < score c
      · rw [if_pos hbc]
        exact le_of_lt hbc
      · rw [if_neg hbc]
    · intro x hx
      rcases List.mem_cons.mp hx with rfl | hx
      · refine le_trans ?_ hle
        by_cases hbc : score b < score x
        · rw [if_pos hbc]
        · rw [if_neg hbc]
          exact le_of_not_lt hbc
      · exact hall x hx

/-- A successful `GridSearchCV` selection returns a candidate of maximal
score. -/
theorem bestParam_spec (score : ℕ → ℚ) (l : List ℕ) (k : ℕ)
    (h : bestParam score l = some k) : k ∈ l ∧ ∀ x ∈ l, score x ≤ score k := by
  cases l with
  | nil => exact absurd h (by simp [bestParam])
  | cons c ks =>
    obtain ⟨hmem, hle, hall⟩ := bestParam_foldl_spec score ks c
    have hk : ks.foldl (fun best cand => if score best < score cand then cand else best) c = k :=
      Option.some.inj h
    rw [hk] at hmem hle hall
    constructor
    · rcases hmem with hmem | hmem
      · subst hmem
        exact List.mem_cons_self _ ks
      · exact List.mem_cons_of_mem c hmem
    · intro x hx
      rcases List.mem_cons.mp hx with rfl | hx
      · exact hle
      · exact hall x hx

/-- Euclidean distances in the model are non-negative. -/
theorem euclidean_distance_nonneg (a b : List ℚ) : 0 ≤ euclidean_distance a b :=
  ratSqrt_nonneg _

/-- The distance from a row to itself is zero. -/
theorem euclidean_distance_self (a : List ℚ) : euclidean_distance a a = 0 := by
  unfold euclidean_distance
  rw [sqDist_self, ratSqrt_zero]

/-- Every element of a `zipWith` is a value of the zipped function. -/
theorem mem_zipWith {α β γ : Type} (f : α → β → γ) :
    ∀ (l1 : List α) (l2 : List β) (c : γ), c ∈ List.zipWith f l1 l2 → ∃ a b, c = f a b := by
  intro l1
  induction l1 with
  | nil =>
    intro l2 c hc
    simp at hc
  | cons a l1 ih =>
    intro l2 c hc
    cases l2 with
    | nil => simp at hc
    | cons b l2 =>
      rw [List.zipWith_cons_cons, List.mem_cons] at hc
      rcases hc with rfl | hc
      · exact ⟨a, b, rfl⟩
      · exact ih l2 c hc

/-- Self-comparison shares every sample id. -/
theorem shared_sample_ids_self (p : PCA) (h : p.WF) :
    shared_sample_ids p p = p.sample_ids := by
  rw [shared_sample_ids_eq p p h, List.filter_eq_self]
  intro s hs
  exact decide_eq_true hs

/-- Self-comparison clips nothing: both clipped objects are the input. -/
theorem clipped_self (p : PCA) (h : p.WF) :
    clipped_comparable p p = p ∧ clipped_reference p p = p := by
  have hfilter : (p.rows.filter fun row =>
      decide (row.sample_id ∈ shared_sample_ids p p)) = p.rows := by
    rw [List.filter_eq_self]
    intro row hrow
    apply decide_eq_true
    rw [shared_sample_ids_self p h]
    exact List.mem_map_of_mem Row.sample_id hrow
  constructor
  · unfold clipped_comparable
    rw [hfilter]
  · unfold clipped_reference
    rw [hfilter]

/-- The sample-loss warning fires exactly at the 80 percent threshold. -/
theorem check_sample_clipping_spec (before after : PCA) :
    (_check_sample_clipping before after = some ⟨before.nSamples, after.nSamples⟩ ∧
      (after.nSamples : ℚ) ≤ 8 / 10 * (before.nSamples : ℚ)) ∨
    (_check_sample_clipping before after = none ∧
      ¬ (after.nSamples : ℚ) ≤ 8 / 10 * (before.nSamples : ℚ)) := by
  unfold _check_sample_clipping
  by_cases hle : (after.nSamples : ℚ) ≤ 8 / 10 * (before.nSamples : ℚ)
  · left
    rw [if_pos hle]
    exact ⟨rfl, hle⟩
  · right
    rw [if_neg hle]
    exact ⟨rfl, hle⟩

/-- The automatic branch of `get_optimal_kmeans_k`, unfolded. -/
theorem get_optimal_auto_eq (K : Kernels) (p : PCA) :
    p.get_optimal_kmeans_k K none =
      match bestParam (fun k => K.score p.pc_vectors k)
        (List.range' (min 3 (autoMaxK p)) (autoMaxK p - min 3 (autoMaxK p))) with
      | none => .error "No fits were performed"
      | some k => .ok k := rfl

/-- `compare_clustering` with an explicit k, reduced: fit on the two stored
matrices, predict on the same matrices, score with Fowlkes-Mallows. -/
theorem compare_clustering_some_eq (K : Kernels) (c : PCAComparison) (k : ℕ) :
    c.compare_clustering K (some k) = .ok (K.fowlkes
      (K.kmPredict k c.reference.pc_vectors c.reference.pc_vectors)
      (K.kmPredict k c.comparable.pc_vectors c.comparable.pc_vectors)) := rfl

/-- `compare_clustering` without a k, reduced, once the automatic selection on
the stored `reference` object succeeds. -/
theorem compare_clustering_none_eq (K : Kernels) (c : PCAComparison) (k : ℕ)
    (hopt : c.reference.get_optimal_kmeans_k K none = .ok k) :
    c.compare_clustering K none = .ok (K.fowlkes
      (K.kmPredict k c.reference.pc_vectors c.reference.pc_vectors)
      (K.kmPredict k c.comparable.pc_vectors c.comparable.pc_vectors)) := by
  unfold PCAComparison.compare_clustering
  simp only [hopt]
  rfl

/-!
The claims.
-/

/-- C5: automatic cluster-count selection without explicit boundaries searches
candidate k values in the half-open range from min(3, max_k) up to but not
including max_k, where max_k is the number of distinct population labels when
more than one population is present and otherwise the floor square root of the
sample count, and it returns a candidate maximizing the (negative-BIC) grid
score; a single uniform population with 100 samples yields max_k = 10 and
min_k = 3. -/
theorem c5_auto_k_selection (K : Kernels) (p : PCA)
    (hne : min 3 (autoMaxK p) < autoMaxK p) :
    (∃ k, p.get_optimal_kmeans_k K none = .ok k ∧
      k ∈ List.range' (min 3 (autoMaxK p)) (autoMaxK p - min 3 (autoMaxK p)) ∧
      ∀ x ∈ List.range' (min 3 (autoMaxK p)) (autoMaxK p - min 3 (autoMaxK p)),
        K.score p.pc_vectors x ≤ K.score p.pc_vectors k) ∧
    (p.populations.dedup.length = 1 → p.nSamples = 100 →
      autoMaxK p = 10 ∧ min 3 (autoMaxK p) = 3) := by
  constructor
  · cases hcand : List.range' (min 3 (autoMaxK p)) (autoMaxK p - min 3 (autoMaxK p)) with
    | nil =>
      exfalso
      have hlen := congrArg List.length hcand
      rw [List.length_range'] at hlen
      simp at hlen
      omega
    | cons c ks =>
      have hbp : bestParam (fun k => K.score p.pc_vectors k) (c :: ks) =
          some (ks.foldl (fun best cand =>
            if K.score p.pc_vectors best < K.score p.pc_vectors cand then cand else best) c) :=
        rfl
      obtain ⟨hmem, hall⟩ := bestParam_spec (fun k => K.score p.pc_vectors k) (c :: ks) _ hbp
      refine ⟨ks.foldl (fun best cand =>
        if K.score p.pc_vectors best < K.score p.pc_vectors cand then cand else best) c,
        ?_, ?_, ?_⟩
      · rw [get_optimal_auto_eq, hcand, hbp]
      · exact hmem
      · exact hall
  · intro h1 h100
    have hmax : autoMaxK p = 10 := by
      unfold autoMaxK
      rw [h1, h100]
      norm_num
    exact ⟨hmax, by rw [hmax]; omega⟩

set_option maxRecDepth 8000 in
/-- Witness for C5 at the 100-sample single-population embedding `p100` and
the trivial kernel. -/
theorem c5_witness :
    (∃ k, p100.get_optimal_kmeans_k K0 none = .ok k ∧
      k ∈ List.range' (min 3 (autoMaxK p100)) (autoMaxK p100 - min 3 (autoMaxK p100)) ∧
      ∀ x ∈ List.range' (min 3 (autoMaxK p100)) (autoMaxK p100 - min 3 (autoMaxK p100)),
        K0.score p100.pc_vectors x ≤ K0.score p100.pc_vectors k) ∧
    (p100.populations.dedup.length = 1 → p100.nSamples = 100 →
      autoMaxK p100 = 10 ∧ min 3 (autoMaxK p100) = 3) := by
  have hmax : autoMaxK p100 = 10 := by
    have h1 : p100.populations.dedup.length = 1 := by decide
    have h100 : p100.nSamples = 100 := by decide
    unfold autoMaxK
    rw [h1, h100]
    norm_num
  exact c5_auto_k_selection K0 p100 (by rw [hmax]; omega)

/-- C10 (implicit): whenever the automatically determined max_k is at most
3 — for every embedding with 2 or 3 distinct population labels, or with a
single population and fewer than 16 samples — `get_optimal_kmeans_k` called
without explicit boundaries has min_k = max_k, so the half-open candidate
range is empty and the call fails with the sklearn empty-parameter-grid error
instead of returning a cluster count. -/
theorem c10_small_max_k_fails (K : Kernels) (p : PCA)
    (h : p.populations.dedup.length = 2 ∨ p.populations.dedup.length = 3 ∨
      (p.populations.dedup.length = 1 ∧ p.nSamples < 16)) :
    autoMaxK p ≤ 3 ∧ min 3 (autoMaxK p) = autoMaxK p ∧
    p.get_optimal_kmeans_k K none = .error "No fits were performed" := by
  have hmax : autoMaxK p ≤ 3 := by
    unfold autoMaxK
    rcases h with h | h | ⟨h1, h2⟩
    · rw [h]
      norm_num
    · rw [h]
      norm_num
    · rw [h1]
      norm_num
      have hs : Nat.sqrt p.nSamples < 4 := Nat.sqrt_lt.mpr (by omega)
      omega
  have hmin : min 3 (autoMaxK p) = autoMaxK p := by omega
  refine ⟨hmax, hmin, ?_⟩
  have hrange : List.range' (min 3 (autoMaxK p)) (autoMaxK p - min 3 (autoMaxK p)) = [] := by
    rw [hmin, Nat.sub_self]
    rfl
  rw [get_optimal_auto_eq, hrange]
  rfl

/-- Witness for C10 at the two-population embedding `p2`. -/
theorem c10_witness :
    autoMaxK p2 ≤ 3 ∧ min 3 (autoMaxK p2) = autoMaxK p2 ∧
    p2.get_optimal_kmeans_k K0 none = .error "No fits were performed" :=
  c10_small_max_k_fails K0 p2 (Or.inl (by decide))

/-- C4 counterexample: at a concrete pair (the self comparison of `e2` under
the trivial kernel) with cutoff 1.0, `detect_rogue_samples` raises an
AttributeError instead of returning the empty flagged set that the claimed
percentile rule (under which no distance strictly exceeds the 100th
percentile) would produce. -/
theorem c4_counterexample :
    ((PCAComparison.init K0 e2 e2).bind fun c => c.detect_rogue_samples 1) =
      .error "AttributeError: Series object has no attribute support" ∧
    ((PCAComparison.init K0 e2 e2).bind fun c => c.detect_rogue_samples 1) ≠
      .ok ([] : List (String × ℚ)) := by
  constructor
  · decide
  · decide

/-- C4 amended: `detect_rogue_samples` implements a support-value cutoff (its
docstring promises the support values strictly below
`support_value_rogue_cutoff`, default 0.5), not a distance-percentile rule;
as implemented, its pandas filter accesses the attribute `support` on the
support-value Series, so every call raises (AttributeError when no sample id
equals "support", otherwise a KeyError from indexing with a scalar boolean)
and in particular never returns a flagged set — empty or not — at any
cutoff. -/
theorem c4_amended_detect_rogue_always_raises (c : PCAComparison) (cutoff : ℚ) :
    ∃ msg, c.detect_rogue_samples cutoff = .error msg := by
  rcases hsv : c.get_sample_support_values with e | svs
  · refine ⟨e, ?_⟩
    unfold PCAComparison.detect_rogue_samples
    rw [hsv]
  · rcases hf : svs.find? (fun p => p.1 == "support") with _ | p
    · refine ⟨"AttributeError: Series object has no attribute support", ?_⟩
      unfold PCAComparison.detect_rogue_samples
      rw [hsv]
      simp only [hf]
    · by_cases hp : p.2 < cutoff
      · refine ⟨"KeyError: scalar boolean label not in the sample-id index", ?_⟩
        unfold PCAComparison.detect_rogue_samples
        rw [hsv]
        simp only [hf, if_pos hp]
      · refine ⟨"KeyError: scalar boolean label not in the sample-id index", ?_⟩
        unfold PCAComparison.detect_rogue_samples
        rw [hsv]
        simp only [hf, if_neg hp]

/-- C3 counterexample: with a procrustes disparity rounding to a hair above
one (the floating-point scenario the claim itself contemplates), `compare`
returns NaN — not the clamped value sqrt(max(0, 1 - disparity)) = 0 and not
any real number in the unit interval. -/
theorem c3_counterexample :
    (PCAComparison.init K3 e2 e2).map PCAComparison.compare = .ok none ∧
    (Except.ok (none : Option ℚ) : Except String (Option ℚ)) ≠
      .ok (some (ratSqrt (max 0 (1 - (1 + mkRat 1 1000000))))) := by
  constructor
  · decide
  · intro hcon
    exact Option.noConfusion (Except.ok.inj hcon)

/-- C3 amended: `compare` computes np.sqrt(1 - disparity) with no clamping of
the radicand.  For disparity 0 the similarity is exactly 1; for disparity in
the unit interval the similarity is a real number in the unit interval; but
when floating-point rounding makes 1 - disparity negative the result is NaN
rather than a clamped 0. -/
theorem c3_amended_no_clamp (K : Kernels) (comp ref : PCA) (cmp : PCAComparison)
    (h : PCAComparison.init K comp ref = .ok cmp) :
    (cmp.disparity = 0 → cmp.compare = some 1) ∧
    (0 ≤ cmp.disparity → cmp.disparity ≤ 1 →
      ∃ s, cmp.compare = some s ∧ 0 ≤ s ∧ s ≤ 1) ∧
    (1 < cmp.disparity → cmp.compare = none) := by
  refine ⟨?_, ?_, ?_⟩
  · intro h0
    unfold PCAComparison.compare npSqrt
    rw [h0]
    norm_num
    exact ratSqrt_one
  · intro h0 h1
    unfold PCAComparison.compare npSqrt
    rw [if_neg (by linarith)]
    exact ⟨ratSqrt (1 - cmp.disparity), rfl, ratSqrt_nonneg _,
      ratSqrt_le_one _ (by linarith) (by linarith)⟩
  · intro h1
    unfold PCAComparison.compare npSqrt
    rw [if_pos (by linarith)]

/-- Witness for the amended C3 at the trivial-kernel self comparison of
`e2`. -/
theorem c3_amended_witness :
    (e2_cmp.disparity = 0 → e2_cmp.compare = some 1) ∧
    (0 ≤ e2_cmp.disparity → e2_cmp.disparity ≤ 1 →
      ∃ s, e2_cmp.compare = some s ∧ 0 ≤ s ∧ s ≤ 1) ∧
    (1 < e2_cmp.disparity → e2_cmp.compare = none) :=
  c3_amended_no_clamp K0 e2 e2 e2_cmp (by decide)

/-- C6: for every two well-formed, dimension-compatible embeddings whose
sample-id sets are disjoint, alignment fails with the
no-samples-left-after-clipping error (the error the specification names
NoOverlapError) instead of returning an alignment result. -/
theorem c6_disjoint_fails (K : Kernels) (comp ref : PCA)
    (hc : comp.WF) (hr : ref.WF) (hn : comp.n_pcs = ref.n_pcs)
    (hdisj : ∀ s ∈ comp.sample_ids, s ∉ ref.sample_ids) :
    match_and_transform K comp ref =
      .error "No samples left for comparison after clipping" := by
  have hshared : shared_sample_ids comp ref = [] := by
    rw [shared_sample_ids_eq comp ref hc, List.filter_eq_nil]
    intro s hs
    simp only [decide_eq_true_eq]
    exact hdisj s hs
  have hC2ids : (clipped_comparable comp ref).sample_ids = [] := by
    rw [clipped_comparable_ids comp ref hc, hshared]
  have hR2ids : (clipped_reference comp ref).sample_ids = [] := by
    rw [clipped_reference_ids comp ref hc hr, hshared]
  have hC2len : (clipped_comparable comp ref).rows.length = 0 := by
    rw [PCA.rows_length_eq_ids, hC2ids]
    rfl
  have hR2len : (clipped_reference comp ref).rows.length = 0 := by
    rw [PCA.rows_length_eq_ids, hR2ids]
    rfl
  have hidseq : (clipped_comparable comp ref).sample_ids =
      (clipped_reference comp ref).sample_ids := by
    rw [hC2ids, hR2ids]
  have hshape : (clipped_comparable comp ref).shape = (clipped_reference comp ref).shape := by
    unfold PCA.shape
    rw [Prod.mk.injEq]
    exact ⟨by rw [hC2len, hR2len], hn⟩
  simp only [match_and_transform, clip_eq_ok comp ref hc hr hn]
  rw [if_neg (by simpa using hidseq), if_neg (by simpa using hshape), if_pos hC2len]

/-- Witness for C6 at the disjoint pair `e2` / `c6_reference`. -/
theorem c6_witness :
    match_and_transform K0 e2 c6_reference =
      .error "No samples left for comparison after clipping" :=
  c6_disjoint_fails K0 e2 c6_reference (by decide) (by decide) rfl (by decide)

/-- C9: for every aligned pair, the per-sample distances are the Euclidean
distances between the stored (standardized / aligned) coordinate rows of the
two sides, the support values are exactly 1 / (1 + d) applied to those
distances, each distance is non-negative, each support value lies in (0, 1]
 — never zero or negative — and the support map is strictly decreasing in
the distance. -/
theorem c9_support_values (K : Kernels) (comp ref : PCA) (cmp : PCAComparison)
    (hc : comp.WF) (hr : ref.WF)
    (h : PCAComparison.init K comp ref = .ok cmp) :
    cmp._get_sample_distances = .ok (List.zip cmp.sample_ids
      (List.zipWith euclidean_distance cmp.reference.pc_vectors cmp.comparable.pc_vectors)) ∧
    cmp.get_sample_support_values = .ok ((List.zip cmp.sample_ids
      (List.zipWith euclidean_distance cmp.reference.pc_vectors cmp.comparable.pc_vectors)).map
        fun pr => (pr.1, supportOf pr.2)) ∧
    (∀ pr ∈ List.zip cmp.sample_ids
      (List.zipWith euclidean_distance cmp.reference.pc_vectors cmp.comparable.pc_vectors),
      0 ≤ pr.2 ∧ supportOf pr.2 = 1 / (1 + pr.2) ∧ 0 < supportOf pr.2 ∧ supportOf pr.2 ≤ 1) ∧
    (∀ d1 d2 : ℚ, 0 ≤ d1 → d1 < d2 → supportOf d2 < supportOf d1) := by
  obtain ⟨_, _, _, _, hids1, hids2, _, _, _, _, _⟩ := init_ok_inv K comp ref cmp hc hr h
  have hideq : cmp.comparable.sample_ids = cmp.reference.sample_ids := by
    rw [hids1, hids2]
  have hdists : cmp._get_sample_distances = .ok (List.zip cmp.sample_ids
      (List.zipWith euclidean_distance cmp.reference.pc_vectors cmp.comparable.pc_vectors)) := by
    unfold PCAComparison._get_sample_distances
    rw [if_pos hideq]
  refine ⟨hdists, ?_, ?_, ?_⟩
  · unfold PCAComparison.get_sample_support_values
    rw [hdists]
  · intro pr hpr
    obtain ⟨a, b⟩ := pr
    obtain ⟨_, hb⟩ := List.of_mem_zip hpr
    obtain ⟨x, y, rfl⟩ := mem_zipWith euclidean_distance _ _ _ hb
    have hnn : (0 : ℚ) ≤ euclidean_distance x y := euclidean_distance_nonneg x y
    exact ⟨hnn, rfl, supportOf_pos _ hnn, supportOf_le_one _ hnn⟩
  · exact fun d1 d2 h0 h12 => supportOf_strict_anti d1 d2 h0 h12

/-- Witness for C9 at the trivial-kernel self comparison of `e4`. -/
theorem c9_witness :
    e4_cmp._get_sample_distances = .ok (List.zip e4_cmp.sample_ids
      (List.zipWith euclidean_distance e4_cmp.reference.pc_vectors e4_cmp.comparable.pc_vectors)) ∧
    e4_cmp.get_sample_support_values = .ok ((List.zip e4_cmp.sample_ids
      (List.zipWith euclidean_distance e4_cmp.reference.pc_vectors e4_cmp.comparable.pc_vectors)).map
        fun pr => (pr.1, supportOf pr.2)) ∧
    (∀ pr ∈ List.zip e4_cmp.sample_ids
      (List.zipWith euclidean_distance e4_cmp.reference.pc_vectors e4_cmp.comparable.pc_vectors),
      0 ≤ pr.2 ∧ supportOf pr.2 = 1 / (1 + pr.2) ∧ 0 < supportOf pr.2 ∧ supportOf pr.2 ≤ 1) ∧
    (∀ d1 d2 : ℚ, 0 ≤ d1 → d1 < d2 → supportOf d2 < supportOf d1) :=
  c9_support_values K0 e4 e4 e4_cmp (by decide) (by decide) (by decide)

/-- C2 counterexample: at a concrete pair — with a kernel instantiation that
agrees with scipy procrustes on the pair — the matrices on which
`compare_clustering` fits its two K-Means models are not the raw post-filter
coordinate matrices of comparable and reference: both stored matrices are the
Procrustes-standardized one. -/
theorem c2_counterexample :
    (PCAComparison.init K2 c2_comparable c2_reference).map
        PCAComparison.compareClusteringFitData ≠
      .ok (c2_comparable.pc_vectors, c2_reference.pc_vectors) := by
  decide

/-- C2 amended: `compare_clustering` fits its two K-Means models on the
matrices stored by the comparison object, which are the two Procrustes
outputs (standardized reference in the `comparable` field, transformed
comparable in the `reference` field — not the raw post-filter matrices); the
cluster-similarity result is the Fowlkes-Mallows score of the label
assignments predicted by the models fitted on exactly these stored matrices,
and the per-sample distances (hence support values) are computed on the same
stored transformed coordinates. -/
theorem c2_amended_fit_on_transformed (K : Kernels) (comp ref : PCA) (cmp : PCAComparison)
    (hc : comp.WF) (hr : ref.WF)
    (h : PCAComparison.init K comp ref = .ok cmp) :
    cmp.compareClusteringFitData = (cmp.comparable.pc_vectors, cmp.reference.pc_vectors) ∧
    cmp.comparable.pc_vectors = (K.procrustes (clipped_reference comp ref).pc_vectors
      (clipped_comparable comp ref).pc_vectors).1 ∧
    cmp.reference.pc_vectors = (K.procrustes (clipped_reference comp ref).pc_vectors
      (clipped_comparable comp ref).pc_vectors).2.1 ∧
    (∀ k, cmp.compare_clustering K (some k) =
      .ok (K.fowlkes (K.kmPredict k cmp.reference.pc_vectors cmp.reference.pc_vectors)
        (K.kmPredict k cmp.comparable.pc_vectors cmp.comparable.pc_vectors))) ∧
    cmp._get_sample_distances = .ok (List.zip cmp.sample_ids
      (List.zipWith euclidean_distance cmp.reference.pc_vectors cmp.comparable.pc_vectors)) := by
  obtain ⟨_, _, _, _, hids1, hids2, hpcv1, hpcv2, _, _, _⟩ :=
    init_ok_inv K comp ref cmp hc hr h
  refine ⟨rfl, hpcv1, hpcv2, fun k => rfl, ?_⟩
  unfold PCAComparison._get_sample_distances
  rw [if_pos (by rw [hids1, hids2])]

/-- Witness for the amended C2 at the concrete C2 pair. -/
theorem c2_amended_witness :
    c2_cmp.compareClusteringFitData = (c2_cmp.comparable.pc_vectors, c2_cmp.reference.pc_vectors) ∧
    c2_cmp.comparable.pc_vectors = (K2.procrustes
      (clipped_reference c2_comparable c2_reference).pc_vectors
      (clipped_comparable c2_comparable c2_reference).pc_vectors).1 ∧
    c2_cmp.reference.pc_vectors = (K2.procrustes
      (clipped_reference c2_comparable c2_reference).pc_vectors
      (clipped_comparable c2_comparable c2_reference).pc_vectors).2.1 ∧
    (∀ k, c2_cmp.compare_clustering K2 (some k) =
      .ok (K2.fowlkes (K2.kmPredict k c2_cmp.reference.pc_vectors c2_cmp.reference.pc_vectors)
        (K2.kmPredict k c2_cmp.comparable.pc_vectors c2_cmp.comparable.pc_vectors))) ∧
    c2_cmp._get_sample_distances = .ok (List.zip c2_cmp.sample_ids
      (List.zipWith euclidean_distance c2_cmp.reference.pc_vectors c2_cmp.comparable.pc_vectors)) :=
  c2_amended_fit_on_transformed K2 c2_comparable c2_reference c2_cmp
    (by decide) (by decide) (by decide)

/-- C1 (code bug): at a concrete aligned pair whose comparable has two
distinct populations and whose reference has four, `compare_clustering`
without an explicit k fails with the empty-grid error for every kernel —
because the swapped return order of `match_and_transform` makes it select k
on the transformed comparable — whereas the automatic selection on the
standardized reference (the ground-truth side named by the claim, stored in
the `comparable` field) succeeds and returns k = 3 for every kernel. -/
theorem c1_k_selected_on_comparable_side (K : Kernels) (cmp : PCAComparison)
    (h : PCAComparison.init K c1_comparable c1_reference = .ok cmp) :
    cmp.compare_clustering K none = .error "No fits were performed" ∧
    cmp.comparable.get_optimal_kmeans_k K none = .ok 3 := by
  obtain ⟨_, _, _, _, _, _, _, _, hpopc, hpopr, _⟩ :=
    init_ok_inv K c1_comparable c1_reference cmp (by decide) (by decide) h
  have hpc : (clipped_reference c1_comparable c1_reference).populations =
      ["pw", "px", "py", "pz"] := by decide
  have hpr : (clipped_comparable c1_comparable c1_reference).populations =
      ["pa", "pa", "pb", "pb"] := by decide
  rw [hpc] at hpopc
  rw [hpr] at hpopr
  have hmaxr : autoMaxK cmp.reference = 2 := by
    have hd : (["pa", "pa", "pb", "pb"] : List String).dedup.length = 2 := by decide
    unfold autoMaxK
    rw [hpopr, hd]
    norm_num
  have hmaxc : autoMaxK cmp.comparable = 4 := by
    have hd : (["pw", "px", "py", "pz"] : List String).dedup.length = 4 := by decide
    unfold autoMaxK
    rw [hpopc, hd]
    norm_num
  constructor
  · have hopt : cmp.reference.get_optimal_kmeans_k K none =
        .error "No fits were performed" := by
      have hrange : List.range' (min 3 (autoMaxK cmp.reference))
          (autoMaxK cmp.reference - min 3 (autoMaxK cmp.reference)) = [] := by
        rw [hmaxr]
        decide
      rw [get_optimal_auto_eq, hrange]
      rfl
    unfold PCAComparison.compare_clustering
    simp only [hopt]
  · have hrange : List.range' (min 3 (autoMaxK cmp.comparable))
        (autoMaxK cmp.comparable - min 3 (autoMaxK cmp.comparable)) = [3] := by
      rw [hmaxc]
      decide
    rw [get_optimal_auto_eq, hrange]
    rfl

/-- Witness for C1 at the trivial kernel: the comparison object the
constructor produces for the C1 pair. -/
theorem c1_witness :
    c1_cmp.compare_clustering K0 none = .error "No fits were performed" ∧
    c1_cmp.comparable.get_optimal_kmeans_k K0 none = .ok 3 :=
  c1_k_selected_on_comparable_side K0 c1_cmp (by decide)

/-- C7: for every two well-formed, dimension-compatible embeddings with a
non-empty sample-id intersection (and a shape-preserving procrustes kernel),
alignment succeeds, the aligned pair contains exactly the intersection
samples on both sides, a non-fatal warning carrying the before/after sample
counts is emitted exactly when the intersection size is at most 80 percent of
either original set, and no warning is emitted when the intersection exceeds
80 percent of both. -/
theorem c7_sample_loss_warning (K : Kernels) (comp ref : PCA)
    (hc : comp.WF) (hr : ref.WF) (hn : comp.n_pcs = ref.n_pcs)
    (hK : K.PreservesShape) (hne : shared_sample_ids comp ref ≠ []) :
    ∃ sr tc d ws, match_and_transform K comp ref = .ok (sr, tc, d, ws) ∧
      sr.sample_ids = shared_sample_ids comp ref ∧
      tc.sample_ids = shared_sample_ids comp ref ∧
      (∀ s, s ∈ shared_sample_ids comp ref ↔ (s ∈ comp.sample_ids ∧ s ∈ ref.sample_ids)) ∧
      (ws ≠ [] ↔
        (((shared_sample_ids comp ref).length : ℚ) ≤ 8 / 10 * (comp.nSamples : ℚ) ∨
         ((shared_sample_ids comp ref).length : ℚ) ≤ 8 / 10 * (ref.nSamples : ℚ))) ∧
      (∀ w ∈ ws, w.n_samples_after = (shared_sample_ids comp ref).length ∧
        (w.n_samples_before = comp.nSamples ∨ w.n_samples_before = ref.nSamples)) := by
  have hwC : ∀ x ∈ (clipped_comparable comp ref).pc_vectors, x.length = ref.n_pcs := by
    intro x hx
    obtain ⟨row, hrow, rfl⟩ := List.mem_map.mp hx
    rw [← hn]
    exact (clipped_comparable_WF comp ref hc).2.1 row hrow
  have hwR : ∀ x ∈ (clipped_reference comp ref).pc_vectors, x.length = ref.n_pcs := by
    intro x hx
    obtain ⟨row, hrow, rfl⟩ := List.mem_map.mp hx
    exact (clipped_reference_WF comp ref hc hr).2.1 row hrow
  have hC2n : (clipped_comparable comp ref).nSamples = (shared_sample_ids comp ref).length := by
    unfold PCA.nSamples
    rw [PCA.rows_length_eq_ids, clipped_comparable_ids comp ref hc]
  have hR2n : (clipped_reference comp ref).nSamples = (shared_sample_ids comp ref).length := by
    unfold PCA.nSamples
    rw [PCA.rows_length_eq_ids, clipped_reference_ids comp ref hc hr]
  have hlen : (clipped_reference comp ref).pc_vectors.length =
      (clipped_comparable comp ref).pc_vectors.length := by
    unfold PCA.pc_vectors
    rw [List.length_map, List.length_map]
    exact hR2n.trans hC2n.symm
  have hKat := hK _ _ ref.n_pcs hwR hwC hlen
  have hmat := match_and_transform_eq_ok K comp ref hc hr hn hne hKat
  have hm1len : (K.procrustes (clipped_reference comp ref).pc_vectors
      (clipped_comparable comp ref).pc_vectors).1.length =
      (clipped_reference comp ref).rows.length :=
    hKat.1.trans (List.length_map _ _)
  have hm2len : (K.procrustes (clipped_reference comp ref).pc_vectors
      (clipped_comparable comp ref).pc_vectors).2.1.length =
      (clipped_comparable comp ref).rows.length :=
    hKat.2.1.trans (List.length_map _ _)
  obtain ⟨hids1, _, _⟩ := built_std_ref_proj K comp ref hm1len
  obtain ⟨hids2, _, _⟩ := built_trans_comp_proj K comp ref hm2len
  have hC2nQ : ((clipped_comparable comp ref).nSamples : ℚ) =
      ((shared_sample_ids comp ref).length : ℚ) := by
    exact_mod_cast congrArg Nat.cast hC2n
  have hR2nQ : ((clipped_reference comp ref).nSamples : ℚ) =
      ((shared_sample_ids comp ref).length : ℚ) := by
    exact_mod_cast congrArg Nat.cast hR2n
  refine ⟨_, _, _, _, hmat, ?_, ?_, ?_, ?_, ?_⟩
  · exact hids1.trans (clipped_reference_ids comp ref hc hr)
  · exact hids2.trans (clipped_comparable_ids comp ref hc)
  · exact fun s => mem_shared_sample_ids comp ref s
  · rcases check_sample_clipping_spec comp (clipped_comparable comp ref) with
      ⟨hs1, hc1⟩ | ⟨hs1, hc1⟩ <;>
      rcases check_sample_clipping_spec ref (clipped_reference comp ref) with
        ⟨hs2, hc2⟩ | ⟨hs2, hc2⟩ <;>
      rw [hs1, hs2] <;> rw [hC2nQ] at hc1 <;> rw [hR2nQ] at hc2
    · exact ⟨fun _ => Or.inl hc1, fun _ => by simp⟩
    · exact ⟨fun _ => Or.inl hc1, fun _ => by simp⟩
    · exact ⟨fun _ => Or.inr hc2, fun _ => by simp⟩
    · constructor
      · intro hcon
        exact absurd rfl hcon
      · intro hab
        rcases hab with hab | hab
        · exact absurd hab hc1
        · exact absurd hab hc2
  · rcases check_sample_clipping_spec comp (clipped_comparable comp ref) with
      ⟨hs1, _⟩ | ⟨hs1, _⟩ <;>
      rcases check_sample_clipping_spec ref (clipped_reference comp ref) with
        ⟨hs2, _⟩ | ⟨hs2, _⟩ <;>
      rw [hs1, hs2] <;> intro w hw <;> simp only [Option.toList_some, Option.toList_none,
        List.append_nil, List.nil_append, List.mem_append, List.mem_singleton,
        List.mem_cons, List.not_mem_nil, or_false] at hw
    · rcases hw with rfl | rfl
      · exact ⟨hC2n, Or.inl rfl⟩
      · exact ⟨hR2n, Or.inr rfl⟩
    · subst hw
      exact ⟨hC2n, Or.inl rfl⟩
    · subst hw
      exact ⟨hR2n, Or.inr rfl⟩

/-- Witness for C7 at the ten-sample pair sharing exactly five ids. -/
theorem c7_witness :
    ∃ sr tc d ws, match_and_transform K0 c7_comparable c7_reference = .ok (sr, tc, d, ws) ∧
      sr.sample_ids = shared_sample_ids c7_comparable c7_reference ∧
      tc.sample_ids = shared_sample_ids c7_comparable c7_reference ∧
      (∀ s, s ∈ shared_sample_ids c7_comparable c7_reference ↔
        (s ∈ c7_comparable.sample_ids ∧ s ∈ c7_reference.sample_ids)) ∧
      (ws ≠ [] ↔
        (((shared_sample_ids c7_comparable c7_reference).length : ℚ) ≤
            8 / 10 * (c7_comparable.nSamples : ℚ) ∨
         ((shared_sample_ids c7_comparable c7_reference).length : ℚ) ≤
            8 / 10 * (c7_reference.nSamples : ℚ))) ∧
      (∀ w ∈ ws, w.n_samples_after = (shared_sample_ids c7_comparable c7_reference).length ∧
        (w.n_samples_before = c7_comparable.nSamples ∨
          w.n_samples_before = c7_reference.nSamples)) :=
  c7_sample_loss_warning K0 c7_comparable c7_reference (by decide) (by decide) rfl
    (fun a b w ha hb hl => ⟨rfl, rfl, ha, hb⟩) (by decide)

/-- C8: for every nonempty well-formed embedding compared against itself,
with the kernels behaving as scipy/sklearn do on identical inputs (procrustes
of a matrix with itself returns the standardized matrix twice with disparity
zero; the Fowlkes-Mallows score of two identical labelings is one), the
Procrustes disparity is 0, the similarity returned by `compare` is 1.0, the
cluster similarity is 1.0 — for an explicit k and, whenever the automatic
candidate grid is non-empty, for the automatic k as well — and every
per-sample support value equals 1.0. -/
theorem c8_self_comparison (K : Kernels) (E : PCA) (k : ℕ)
    (hE : E.WF) (hnonempty : E.rows ≠ [])
    (hself : K.ProcrustesSelfId)
    (hfm : ∀ l : List ℕ, K.fowlkes l l = 1) :
    ∃ cmp, PCAComparison.init K E E = .ok cmp ∧
      cmp.disparity = 0 ∧
      cmp.compare = some 1 ∧
      cmp.compare_clustering K (some k) = .ok 1 ∧
      (min 3 (autoMaxK E) < autoMaxK E → cmp.compare_clustering K none = .ok 1) ∧
      ∃ svs, cmp.get_sample_support_values = .ok svs ∧
        svs.map Prod.fst = cmp.sample_ids ∧ ∀ pr ∈ svs, pr.2 = 1 := by
  obtain ⟨hc2, hr2⟩ := clipped_self E hE
  obtain ⟨hP21, hP22, hPlen, hPw⟩ := hself E.pc_vectors
  have hwid : ∀ x ∈ E.pc_vectors, x.length = E.n_pcs := by
    intro x hx
    obtain ⟨row, hrow, rfl⟩ := List.mem_map.mp hx
    exact hE.2.1 row hrow
  have hKat : K.ShapeOkAt (clipped_reference E E).pc_vectors
      (clipped_comparable E E).pc_vectors E.n_pcs := by
    rw [hc2, hr2]
    refine ⟨hPlen, ?_, hPw _ hwid, ?_⟩
    · rw [hP21]
      exact hPlen
    · rw [hP21]
      exact hPw _ hwid
  have hne : shared_sample_ids E E ≠ [] := by
    rw [shared_sample_ids_self E hE]
    intro h0
    exact hnonempty (List.map_eq_nil.mp h0)
  have hmat := match_and_transform_eq_ok K E E hE hE rfl hne hKat
  have hinit : PCAComparison.init K E E = .ok
      ⟨built_std_ref K E E, built_trans_comp K E E,
        (K.procrustes (clipped_reference E E).pc_vectors
          (clipped_comparable E E).pc_vectors).2.2,
        (built_std_ref K E E).sample_ids,
        (_check_sample_clipping E (clipped_comparable E E)).toList ++
          (_check_sample_clipping E (clipped_reference E E)).toList⟩ := by
    simp only [PCAComparison.init, hmat]
  have hdisp : (K.procrustes (clipped_reference E E).pc_vectors
      (clipped_comparable E E).pc_vectors).2.2 = 0 := by
    rw [hc2, hr2]
    exact hP22
  have hbuilt : built_trans_comp K E E = built_std_ref K E E := by
    unfold built_trans_comp built_std_ref
    rw [hc2, hr2, hP21]
  have hm1len : (K.procrustes (clipped_reference E E).pc_vectors
      (clipped_comparable E E).pc_vectors).1.length = (clipped_reference E E).rows.length := by
    rw [hc2, hr2, hPlen]
    exact List.length_map _ _
  have hm2len : (K.procrustes (clipped_reference E E).pc_vectors
      (clipped_comparable E E).pc_vectors).2.1.length =
      (clipped_comparable E E).rows.length := by
    rw [hc2, hr2, hP21, hPlen]
    exact List.length_map _ _
  obtain ⟨hidsA, hpopA, hpcvA⟩ := built_std_ref_proj K E E hm1len
  obtain ⟨hidsB, hpopB, hpcvB⟩ := built_trans_comp_proj K E E hm2len
  have hpcvAB : (built_trans_comp K E E).pc_vectors = (built_std_ref K E E).pc_vectors := by
    rw [hbuilt]
  refine ⟨_, hinit, hdisp, ?_, ?_, ?_, ?_⟩
  · show npSqrt (1 - (K.procrustes (clipped_reference E E).pc_vectors
      (clipped_comparable E E).pc_vectors).2.2) = some 1
    rw [hdisp]
    unfold npSqrt
    norm_num
    exact ratSqrt_one
  · rw [show (⟨built_std_ref K E E, built_trans_comp K E E, _, _, _⟩ :
        PCAComparison).compare_clustering K (some k) = .ok (K.fowlkes
        (K.kmPredict k (built_trans_comp K E E).pc_vectors (built_trans_comp K E E).pc_vectors)
        (K.kmPredict k (built_std_ref K E E).pc_vectors (built_std_ref K E E).pc_vectors))
      from compare_clustering_some_eq K _ k]
    rw [hpcvAB, hfm]
  · intro hgrid
    have hnB : (built_trans_comp K E E).nSamples = E.nSamples := by
      unfold PCA.nSamples built_trans_comp
      rw [List.length_zipWith, hm2len, Nat.min_self, hc2]
    have hmaxB : autoMaxK (built_trans_comp K E E) = autoMaxK E := by
      unfold autoMaxK
      rw [hpopB, hnB, hc2]
    rw [← hmaxB] at hgrid
    cases hcand : List.range' (min 3 (autoMaxK (built_trans_comp K E E)))
        (autoMaxK (built_trans_comp K E E) - min 3 (autoMaxK (built_trans_comp K E E))) with
    | nil =>
      exfalso
      have hlen0 := congrArg List.length hcand
      rw [List.length_range'] at hlen0
      simp at hlen0
      omega
    | cons c ks =>
      have hopt : (built_trans_comp K E E).get_optimal_kmeans_k K none = .ok
          (ks.foldl (fun best cand =>
            if K.score (built_trans_comp K E E).pc_vectors best <
              K.score (built_trans_comp K E E).pc_vectors cand then cand else best) c) := by
        rw [get_optimal_auto_eq, hcand]
        rfl
      have hres := compare_clustering_none_eq K
        ⟨built_std_ref K E E, built_trans_comp K E E,
          (K.procrustes (clipped_reference E E).pc_vectors
            (clipped_comparable E E).pc_vectors).2.2,
          (built_std_ref K E E).sample_ids,
          (_check_sample_clipping E (clipped_comparable E E)).toList ++
            (_check_sample_clipping E (clipped_reference E E)).toList⟩
        _ hopt
      rw [hres, hpcvAB, hfm]
  · have hidseq : (built_std_ref K E E).sample_ids = (built_trans_comp K E E).sample_ids := by
      rw [hbuilt]
    have hdists : (⟨built_std_ref K E E, built_trans_comp K E E,
        (K.procrustes (clipped_reference E E).pc_vectors
          (clipped_comparable E E).pc_vectors).2.2,
        (built_std_ref K E E).sample_ids,
        (_check_sample_clipping E (clipped_comparable E E)).toList ++
          (_check_sample_clipping E (clipped_reference E E)).toList⟩ :
        PCAComparison)._get_sample_distances = .ok
        (List.zip (built_std_ref K E E).sample_ids
          (List.zipWith euclidean_distance (built_trans_comp K E E).pc_vectors
            (built_std_ref K E E).pc_vectors)) := by
      unfold PCAComparison._get_sample_distances
      rw [if_pos hidseq]
    refine ⟨(List.zip (built_std_ref K E E).sample_ids
        (List.zipWith euclidean_distance (built_trans_comp K E E).pc_vectors
          (built_std_ref K E E).pc_vectors)).map (fun p => (p.1, supportOf p.2)),
      ?_, ?_, ?_⟩
    · show (match (⟨built_std_ref K E E, built_trans_comp K E E,
          (K.procrustes (clipped_reference E E).pc_vectors
            (clipped_comparable E E).pc_vectors).2.2,
          (built_std_ref K E E).sample_ids,
          (_check_sample_clipping E (clipped_comparable E E)).toList ++
            (_check_sample_clipping E (clipped_reference E E)).toList⟩ :
          PCAComparison)._get_sample_distances with
        | .error e => .error e
        | .ok sample_distances => .ok (sample_distances.map fun p => (p.1, supportOf p.2))) =
        Except.ok ((List.zip (built_std_ref K E E).sample_ids
          (List.zipWith euclidean_distance (built_trans_comp K E E).pc_vectors
            (built_std_ref K E E).pc_vectors)).map fun p => (p.1, supportOf p.2))
      rw [hdists]
    · rw [List.map_map]
      have hcomp : (Prod.fst ∘ fun pr : String × ℚ => (pr.1, supportOf pr.2)) = Prod.fst :=
        rfl
      rw [hcomp]
      apply List.map_fst_zip
      rw [List.length_zipWith, hpcvAB, Nat.min_self]
      show (built_std_ref K E E).sample_ids.length ≤ (built_std_ref K E E).pc_vectors.length
      unfold PCA.sample_ids PCA.pc_vectors
      rw [List.length_map, List.length_map]
    · intro pr hpr
      obtain ⟨s, v⟩ := pr
      rw [List.mem_map] at hpr
      obtain ⟨⟨s2, d⟩, hmem, heq⟩ := hpr
      obtain ⟨_, hd⟩ := List.of_mem_zip hmem
      rw [hpcvAB, List.zipWith_same, List.mem_map] at hd
      obtain ⟨row, _, rfl⟩ := hd
      rw [Prod.mk.injEq] at heq
      rw [← heq.2, euclidean_distance_self]
      unfold supportOf
      norm_num

/-- Witness for C8 at the trivial-kernel self comparison of `e4` with
explicit k = 2. -/
theorem c8_witness :
    ∃ cmp, PCAComparison.init K0 e4 e4 = .ok cmp ∧
      cmp.disparity = 0 ∧
      cmp.compare = some 1 ∧
      cmp.compare_clustering K0 (some 2) = .ok 1 ∧
      (min 3 (autoMaxK e4) < autoMaxK e4 → cmp.compare_clustering K0 none = .ok 1) ∧
      ∃ svs, cmp.get_sample_support_values = .ok svs ∧
        svs.map Prod.fst = cmp.sample_ids ∧ ∀ pr ∈ svs, pr.2 = 1 :=
  c8_self_comparison K0 e4 2 (by decide) (by decide)
    (fun m => ⟨rfl, rfl, rfl, fun w hw => hw⟩) (fun l => if_pos rfl)

end Pandora
